import Mathlib

/-!
Verification development for the ML_Percy cross-view correspondence dataset
pipeline (manifest construction in BDAG/Scripts/image-manifest.py, curation and
split generation in MK/Scripts/prepare-transgeo.py and
BDAG/Scripts/prepare-transgeo.py).

The manifest is a pair of insertion-ordered key/item maps, modelled as
association lists.  All label-derived fields (coordinates, identifiers) are
kept as strings, exactly as the builder stores the regex capture groups
verbatim into the JSON manifest.  Random draws (random.sample, random.shuffle)
are modelled as oracle parameters; the external raster pixel transform is an
oracle parameter of the split emitter.
-/

namespace MLPercy

/-- A ground image entry of the manifest ("ground" map values in
image-manifest.py lines 77-82): size, location (lon/lat capture strings),
and the two edge lists. -/
structure GroundItem where
  w : Nat
  h : Nat
  lon : String
  lat : String
  positive : List String
  semiPositive : List String
deriving DecidableEq

/-- An aerial tile entry of the manifest ("aerial" map values in
image-manifest.py lines 49-62).  Boundary point 0 carries (min lon, max lat),
point 1 carries (max lon, min lat), mirroring the `positive-boundary` /
`semi-positive-boundary` two-point lists built from the filename captures. -/
structure AerialItem where
  tileId : String
  w : Nat
  h : Nat
  centerLon : String
  centerLat : String
  posLon0 : String
  posLat0 : String
  posLon1 : String
  posLat1 : String
  semiLon0 : String
  semiLat0 : String
  semiLon1 : String
  semiLat1 : String
  positive : List String
  semiPositive : List String
deriving DecidableEq

/-- The manifest: two key → item maps kept in insertion order. -/
structure Manifest where
  aerial : List (String × AerialItem)
  ground : List (String × GroundItem)
deriving DecidableEq

/-- Dictionary lookup (first entry with the given key). -/
def lookupKey {α : Type} (l : List (String × α)) (k : String) : Option α :=
  (l.find? (fun p => p.1 == k)).map (fun p => p.2)

/-- Dictionary key-membership test (`k in d` in Python). -/
def containsKey {α : Type} (l : List (String × α)) (k : String) : Bool :=
  l.any (fun p => p.1 == k)

/-- Python string `<`: code-point lexicographic comparison of the characters. -/
def charListLt : List Char → List Char → Bool
  | [], [] => false
  | [], _ :: _ => true
  | _ :: _, [] => false
  | a :: as, b :: bs => if a < b then true else if b < a then false else charListLt as bs

/-- Python string `<=` as used by the chained comparisons in
image-manifest.py lines 64-65 (the compared values are the raw capture
strings, so this is lexicographic, not numeric). -/
def pyStrLe (a b : String) : Bool :=
  a == b || charListLt a.data b.data

/-- image-manifest.py line 64: the positive containment test, operating on the
string-valued location and boundary fields with Python string comparison. -/
def is_positive (gi : GroundItem) (ai : AerialItem) : Bool :=
  pyStrLe ai.posLon0 gi.lon && pyStrLe gi.lon ai.posLon1 &&
  pyStrLe ai.posLat1 gi.lat && pyStrLe gi.lat ai.posLat0

/-- image-manifest.py line 65: the semi-positive containment test (same shape
as `is_positive` over the semi-positive boundary fields). -/
def is_semi_positive (gi : GroundItem) (ai : AerialItem) : Bool :=
  pyStrLe ai.semiLon0 gi.lon && pyStrLe gi.lon ai.semiLon1 &&
  pyStrLe ai.semiLat1 gi.lat && pyStrLe gi.lat ai.semiLat0

/-- Result of classifying one (ground, aerial) pair. -/
inductive PairClass
  | positive
  | semiPositive
  | unrelated
deriving DecidableEq

/-- image-manifest.py lines 86-91: positive is tested first, then
semi-positive, else the pair is unrelated. -/
def classifyPair (gi : GroundItem) (ai : AerialItem) : PairClass :=
  if is_positive gi ai then PairClass.positive
  else if is_semi_positive gi ai then PairClass.semiPositive
  else PairClass.unrelated

/-- Split a character list into its leading run of decimal digits and the
rest (the semantics of a greedy regex dig-run). -/
def spanDigits (l : List Char) : List Char × List Char :=
  (l.takeWhile Char.isDigit, l.dropWhile Char.isDigit)

/-- Numeric value of a digit string (int() on a digit capture). -/
def digitsToNat (l : List Char) : Nat :=
  l.foldl (fun n c => 10 * n + (c.toNat - 48)) 0

/-- Rational value of an unsigned decimal capture `\d+\.\d+`
(integer part, dot, fraction part). -/
def decValAux (l : List Char) : ℚ :=
  let ip := (spanDigits l).1
  match (spanDigits l).2 with
  | '.' :: fr =>
      let fp := (spanDigits fr).1
      (digitsToNat ip : ℚ) + (digitsToNat fp : ℚ) / ((10 : ℚ) ^ fp.length)
  | _ => (digitsToNat ip : ℚ)

/-- Rational value of a signed decimal capture `-?\d+\.\d+` (what float()
would produce on these captures, represented exactly). -/
def decVal (s : String) : ℚ :=
  match s.data with
  | '-' :: rest => - decValAux rest
  | _ => decValAux s.data

/-- Follows the spec's words (reference definition, for comparison with the
code's `is_positive`): the ground image's geodetic location lies inside the
positive-boundary rectangle, inclusively on longitude and latitude,
numerically. -/
def is_positive_spec (gi : GroundItem) (ai : AerialItem) : Bool :=
  decide (decVal ai.posLon0 ≤ decVal gi.lon) && decide (decVal gi.lon ≤ decVal ai.posLon1) &&
  decide (decVal ai.posLat1 ≤ decVal gi.lat) && decide (decVal gi.lat ≤ decVal ai.posLat0)

/-- Follows the spec's words: numeric containment in the semi-positive
boundary rectangle. -/
def is_semi_positive_spec (gi : GroundItem) (ai : AerialItem) : Bool :=
  decide (decVal ai.semiLon0 ≤ decVal gi.lon) && decide (decVal gi.lon ≤ decVal ai.semiLon1) &&
  decide (decVal ai.semiLat1 ≤ decVal gi.lat) && decide (decVal gi.lat ≤ decVal ai.semiLat0)

/-- Follows the spec's words: positive if inside the positive rectangle,
else semi-positive if inside the semi-positive rectangle, else unrelated. -/
def classifyPair_spec (gi : GroundItem) (ai : AerialItem) : PairClass :=
  if is_positive_spec gi ai then PairClass.positive
  else if is_semi_positive_spec gi ai then PairClass.semiPositive
  else PairClass.unrelated

/-- Erase a ground key from both edge lists of an aerial item
(`list.remove(ground_key)` removes the first occurrence, guarded by an
`in` test, which is exactly `List.erase`). -/
def scrubGround (g : String) (ai : AerialItem) : AerialItem :=
  { ai with positive := ai.positive.erase g, semiPositive := ai.semiPositive.erase g }

/-- Erase an aerial key from both edge lists of a ground item. -/
def scrubAerial (a : String) (gi : GroundItem) : GroundItem :=
  { gi with positive := gi.positive.erase a, semiPositive := gi.semiPositive.erase a }

/-- prepare-transgeo.py (MK) lines 62-71: delete the ground entry and remove
its key from the positive and semi-positive list of every aerial item. -/
def removeGroundImage (g : String) (m : Manifest) : Manifest :=
  { ground := m.ground.filter (fun p => p.1 != g),
    aerial := m.aerial.map (fun q => (q.1, scrubGround g q.2)) }

/-- prepare-transgeo.py (MK) lines 73-82: delete the aerial entry and remove
its key from the positive and semi-positive list of every ground item. -/
def removeAerialImage (a : String) (m : Manifest) : Manifest :=
  { aerial := m.aerial.filter (fun q => q.1 != a),
    ground := m.ground.map (fun p => (p.1, scrubAerial a p.2)) }

/-- `Path(key).name`: the last `/`-separated component of the key. -/
def baseName (s : String) : String :=
  String.mk ((s.data.reverse.takeWhile (fun c => c ≠ '/')).reverse)

/-- Distinct elements in first-seen order (the key order of a Python dict
built by repeated insertion). -/
def firstSeenAux {α : Type} [DecidableEq α] : List α → List α → List α
  | _, [] => []
  | seen, x :: xs =>
    if x ∈ seen then firstSeenAux seen xs else x :: firstSeenAux (x :: seen) xs

/-- prepare-transgeo.py (MK) lines 84-96: group the snapshot of all keys
(aerial first, then ground) by base filename; for every name with more than
one key, keep the first key and remove the rest (aerial removal tried first,
then ground). -/
def dedupPass (m : Manifest) : Manifest :=
  let keys := m.aerial.map Prod.fst ++ m.ground.map Prod.fst
  let names := firstSeenAux [] (keys.map baseName)
  names.foldl (fun acc nm =>
    let group := keys.filter (fun k => baseName k == nm)
    if group.length ≤ 1 then acc
    else (group.drop 1).foldl (fun acc2 k =>
      if containsKey acc2.aerial k then removeAerialImage k acc2
      else if containsKey acc2.ground k then removeGroundImage k acc2
      else acc2) acc) m

/-- prepare-transgeo.py (MK) lines 98-106: remove every image whose base
filename contains a space. -/
def spacePass (m : Manifest) : Manifest :=
  (m.aerial.map Prod.fst ++ m.ground.map Prod.fst).foldl (fun acc k =>
    if (baseName k).contains ' ' then
      (if containsKey acc.aerial k then removeAerialImage k acc
       else if containsKey acc.ground k then removeGroundImage k acc
       else acc)
    else acc) m

/-- prepare-transgeo.py (MK) lines 108-111: remove every ground image whose
aspect ratio w/h is below the configured threshold (snapshot of the ground
items taken before any removal). -/
def panoramaPass (minAspect : ℚ) (m : Manifest) : Manifest :=
  ((m.ground.filter (fun p => decide ((p.2.w : ℚ) / (p.2.h : ℚ) < minAspect))).map Prod.fst).foldl
    (fun acc g => removeGroundImage g acc) m

/-- Contract of Python's `random.sample population k` (prepare-transgeo.py
imports `sample` from the global random module): the result is a
duplicate-free selection of `k` of the population's elements.  The random
source is modelled as this oracle parameter. -/
def SamplerSpec (pick : List String → Nat → List String) : Prop :=
  ∀ pop k, (∀ x ∈ pick pop k, x ∈ pop) ∧ (pop.Nodup → (pick pop k).Nodup) ∧
    (k ≤ pop.length → (pick pop k).length = k)

/-- Update the positive list of the aerial entry with the given key
(`aerial_item["positive"] = panorama_sample`). -/
def setPositiveList (m : Manifest) (a : String) (ps : List String) : Manifest :=
  { m with aerial := m.aerial.map (fun q =>
      if q.1 == a then (q.1, { q.2 with positive := ps }) else q) }

/-- One iteration of the capping loop, prepare-transgeo.py (MK) lines
113-125: if the tile's positive list exceeds the (truthy) maximum, draw a
sample of that size, remove every leftover ground image from the whole
manifest, and set the tile's positive list to the sample. -/
def capOne (pick : List String → Nat → List String) (maxPos : Nat) (m : Manifest)
    (a : String) : Manifest :=
  match lookupKey m.aerial a with
  | none => m
  | some ai =>
    if maxPos ≠ 0 ∧ maxPos < ai.positive.length then
      let samp := pick ai.positive maxPos
      let leftovers := ai.positive.filter (fun g => decide (g ∉ samp))
      let m1 := leftovers.foldl (fun acc g => removeGroundImage g acc) m
      setPositiveList m1 a samp
    else m

/-- The full capping pass: the loop over the aerial keys (the aerial key set
is unchanged during the pass, so iterating over the initial key snapshot is
the dict iteration of the source). -/
def capPass (pick : List String → Nat → List String) (maxPos : Nat) (m : Manifest) : Manifest :=
  (m.aerial.map Prod.fst).foldl (fun acc a => capOne pick maxPos acc a) m

/-- prepare-transgeo.py (MK) lines 127-132: distractions are the aerial
tiles with empty positive and semi-positive lists; a sample of
`int((1 - keepProp) * len(distractions))` of them is removed
(keepProp is the already-clamped distraction proportion, so the product is
nonnegative and int() truncation is the floor). -/
def distractionPass (pick : List String → Nat → List String) (keepProp : ℚ)
    (m : Manifest) : Manifest :=
  let distractions := (m.aerial.filter (fun q =>
    q.2.positive.isEmpty && q.2.semiPositive.isEmpty)).map Prod.fst
  let removeCount := (((1 - keepProp) * (distractions.length : ℚ)).floor).toNat
  (pick distractions removeCount).foldl (fun acc a => removeAerialImage a acc) m

/-- prepare-transgeo.py (MK) lines 134-137: remove every ground image with
fewer than 3 semi-positive aerial images (snapshot taken before removals;
removals touch only aerial lists and the removed entries themselves). -/
def minSemiPass (m : Manifest) : Manifest :=
  ((m.ground.filter (fun p => decide (p.2.semiPositive.length < 3))).map Prod.fst).foldl
    (fun acc g => removeGroundImage g acc) m

/-- Both key maps are duplicate-free (Python dicts). -/
def NodupKeys (m : Manifest) : Prop :=
  (m.aerial.map Prod.fst).Nodup ∧ (m.ground.map Prod.fst).Nodup

/-- Every edge list is duplicate-free (the builder appends each (g,a) pair at
most once). -/
def ListsNodup (m : Manifest) : Prop :=
  (∀ q ∈ m.aerial, q.2.positive.Nodup ∧ q.2.semiPositive.Nodup) ∧
  (∀ p ∈ m.ground, p.2.positive.Nodup ∧ p.2.semiPositive.Nodup)

/-- Bidirectional consistency: for present keys, membership of a in
ground[g].positive coincides with membership of g in aerial[a].positive, and
likewise for the semi-positive lists. -/
def BiConsistent (m : Manifest) : Prop :=
  ∀ p ∈ m.ground, ∀ q ∈ m.aerial,
    (q.1 ∈ p.2.positive ↔ p.1 ∈ q.2.positive) ∧
    (q.1 ∈ p.2.semiPositive ↔ p.1 ∈ q.2.semiPositive)

/-- Positive and semi-positive membership are mutually exclusive for a given
pair, on both sides. -/
def MutExcl (m : Manifest) : Prop :=
  (∀ q ∈ m.aerial, ∀ g ∈ q.2.positive, g ∉ q.2.semiPositive) ∧
  (∀ p ∈ m.ground, ∀ a ∈ p.2.positive, a ∉ p.2.semiPositive)

/-- The manifest graph invariant. -/
def WF (m : Manifest) : Prop :=
  NodupKeys m ∧ ListsNodup m ∧ BiConsistent m ∧ MutExcl m

instance (m : Manifest) : Decidable (NodupKeys m) := by unfold NodupKeys; infer_instance

instance (m : Manifest) : Decidable (ListsNodup m) := by unfold ListsNodup; infer_instance

instance (m : Manifest) : Decidable (BiConsistent m) := by unfold BiConsistent; infer_instance

instance (m : Manifest) : Decidable (MutExcl m) := by unfold MutExcl; infer_instance

instance (m : Manifest) : Decidable (WF m) := by unfold WF; infer_instance

/-- prepare-transgeo.py (BDAG) lines 136-137: the random image-level split.
train = a sample of `int(len * trainProp)` ground images, test = the
remaining ground images (the source forms Python sets; only set membership
of the two sides is observable downstream). -/
def randomSplitSets (pick : List String → Nat → List String)
    (groundImages : List String) (trainProp : ℚ) : List String × List String :=
  let trainS := pick groundImages ((((groundImages.length : ℚ) * trainProp).floor).toNat)
  (trainS, groundImages.filter (fun g => decide (g ∉ trainS)))

/-- Does the regex `_\d{4}_` match at the head of the character list? -/
def matchSolAt (l : List Char) : Bool :=
  match l with
  | '_' :: d1 :: d2 :: d3 :: d4 :: '_' :: _ =>
    d1.isDigit && d2.isDigit && d3.isDigit && d4.isDigit
  | _ => false

/-- The scanning loop of `re.findall`, structurally recursive on a fuel
that bounds the number of scan steps (each step consumes at least one
character, so a fuel of the list length is always enough). -/
def findall4Aux : Nat → List Char → List String
  | 0, _ => []
  | _ + 1, [] => []
  | fuel + 1, c :: rest =>
    if matchSolAt (c :: rest) then
      String.mk ((c :: rest).take 6) :: findall4Aux fuel (rest.drop 5)
    else
      findall4Aux fuel rest

/-- `re.findall('_\d{4}_', s)`: all non-overlapping matches, left to right;
after a match scanning resumes past its final underscore. -/
def findall4 (l : List Char) : List String := findall4Aux l.length l

/-- prepare-transgeo.py (MK) lines 169 and 185:
`int(re.findall('_\d{4}_', key)[0][1:][:-1])` — the sol number of a ground
key, `none` when the match list is empty and the indexing raises. -/
def extractSol (s : String) : Option Nat :=
  match findall4 s.data with
  | [] => none
  | msol :: _ => some (digitsToNat ((msol.data.drop 1).take 4))

/-- prepare-transgeo.py (MK) lines 167-170: the first loop over the ground
keys, collecting `int(re.findall('_\d{4}_', key)[0][1:][:-1])` for each; the
first key without a match raises an uncaught IndexError (the error case). -/
def collectSols : List String → Except String (List Nat)
  | [] => Except.ok []
  | k :: rest =>
    match extractSol k with
    | none => Except.error k
    | some n => (collectSols rest).map (fun ns => n :: ns)

/-- prepare-transgeo.py (MK) lines 181-189: the assignment loop, appending
every ground key to the train list if its sol is among the retained sols,
else to the test list (re-extracting the sol; a failure aborts). -/
def assignSplitAux (trainSols : List Nat) :
    List String → List String × List String → Except String (List String × List String)
  | [], tt => Except.ok tt
  | k :: rest, tt =>
    match extractSol k with
    | none => Except.error k
    | some n =>
      if n ∈ trainSols then assignSplitAux trainSols rest (tt.1 ++ [k], tt.2)
      else assignSplitAux trainSols rest (tt.1, tt.2 ++ [k])

/-- The assignment loop started from two empty lists. -/
def assignSplit (trainSols : List Nat) (keys : List String) :
    Except String (List String × List String) :=
  assignSplitAux trainSols keys ([], [])

/-- prepare-transgeo.py (MK) lines 166-189: the episode-grouped (sol-based)
split.  First loop: the sol of every ground key (the first key without a
`_\d{4}_` segment aborts the run).  Then: deduplicate (`set(sols)`), shuffle
(the shuffle oracle absorbs both the set iteration order and
`random.shuffle`), keep the first `int(len * trainProp)` sols as the train
sols, and assign every key by sol membership.  `trainProp` is the clamped
train proportion, so int() truncation is the floor. -/
def episodeSplitStep (shuffle : List Nat → List Nat) (trainProp : ℚ)
    (keys : List String) : Except String (List String × List String) :=
  match collectSols keys with
  | Except.error e => Except.error e
  | Except.ok sols =>
    let solsU := firstSeenAux [] sols
    let nTrain := ((((solsU.length : ℚ)) * trainProp).floor).toNat
    let trainSols := (shuffle solsU).take nTrain
    assignSplit trainSols keys

/-- `ground_aerial_offset_px` (prepare-transgeo.py lines 57-60):
componentwise pixel difference `t_px(ground) - t_px(aerial)`.  `tpx` is the
external raster transform (lon, lat) ↦ (col, row), an oracle here. -/
def pxOffset (tpx : String → String → Int × Int) (lonG latG lonA latA : String) : Int × Int :=
  ((tpx lonG latG).1 - (tpx lonA latA).1, (tpx lonG latG).2 - (tpx lonA latA).2)

/-- One semi-positive record on a correspondence line:
`f" {semi_positive_name} {offset_px[1]} {offset_px[0]}"` (row, then col). -/
def semiEntry (tpx : String → String → Int × Int) (lonG latG aKey : String)
    (ai : AerialItem) : String :=
  let off := pxOffset tpx lonG latG ai.centerLon ai.centerLat
  " " ++ baseName aKey ++ " " ++ toString off.2 ++ " " ++ toString off.1

/-- The inner loop over `ground_item["semi-positive"][0:3]` of the split
emission (prepare-transgeo.py MK lines 216-220), appending to the
accumulated file content; a dangling aerial key is a KeyError (none). -/
def emitSemiLoop (tpx : String → String → Int × Int) (m : Manifest)
    (lonG latG : String) : List String → String → Option String
  | [], acc => some acc
  | a :: rest, acc =>
    match lookupKey m.aerial a with
    | none => none
    | some ai => emitSemiLoop tpx m lonG latG rest (acc ++ semiEntry tpx lonG latG a ai)

/-- The loop over `ground_item["positive"]` of the MK split emission
(prepare-transgeo.py MK lines 204-222).  For each positive tile the line head
`f"{ground_name} {positive_name} {offset_px[1]} {offset_px[0]}"` is written;
when the ground image has fewer than 3 semi-positives the source `continue`s,
skipping both the semi-positive entries and the newline; otherwise the first
3 semi-positive entries and a newline follow. -/
def emitPosLoop (tpx : String → String → Int × Int) (m : Manifest)
    (gKey : String) (gi : GroundItem) : List String → String → Option String
  | [], acc => some acc
  | a :: rest, acc =>
    match lookupKey m.aerial a with
    | none => none
    | some ai =>
      let off := pxOffset tpx gi.lon gi.lat ai.centerLon ai.centerLat
      let headPart := acc ++ baseName gKey ++ " " ++ baseName a ++ " " ++
        toString off.2 ++ " " ++ toString off.1
      if gi.semiPositive.length < 3 then emitPosLoop tpx m gKey gi rest headPart
      else
        match emitSemiLoop tpx m gi.lon gi.lat (gi.semiPositive.take 3) headPart with
        | none => none
        | some withSemi => emitPosLoop tpx m gKey gi rest (withSemi ++ "\n")

/-- prepare-transgeo.py (MK) lines 199-224: the whole split-file content for
one emitted set of ground keys (one shared string buffer across images). -/
def emitSplitMK (tpx : String → String → Int × Int) (m : Manifest)
    (imgs : List String) : Option String :=
  imgs.foldlM (fun acc g =>
    match lookupKey m.ground g with
    | none => none
    | some gi => emitPosLoop tpx m g gi gi.positive acc) ""

/-- Concatenation of a list of strings. -/
def strConcat : List String → String
  | [] => ""
  | s :: rest => s ++ strConcat rest

/-- The first-3 semi-positive block of one correspondence line, as emitted
for a ground item whose referenced tiles are present. -/
def semiBlock (tpx : String → String → Int × Int) (m : Manifest) (gi : GroundItem) : String :=
  strConcat ((gi.semiPositive.take 3).map (fun sa =>
    match lookupKey m.aerial sa with
    | none => ""
    | some sai => semiEntry tpx gi.lon gi.lat sa sai))

/-- One full correspondence line for one entry of the ground item's positive
list: line head, semi-positive block, newline. -/
def lineFor (tpx : String → String → Int × Int) (m : Manifest) (gKey : String)
    (gi : GroundItem) (a : String) : String :=
  match lookupKey m.aerial a with
  | none => ""
  | some ai =>
    let off := pxOffset tpx gi.lon gi.lat ai.centerLon ai.centerLat
    baseName gKey ++ " " ++ baseName a ++ " " ++ toString off.2 ++ " " ++ toString off.1 ++
      semiBlock tpx m gi ++ "\n"

/-- Number of newline characters (the emitted file has one trailing newline
per correspondence line). -/
def countNewlines (s : String) : Nat :=
  (s.data.filter (fun c => c = '\n')).length

/-- prepare-transgeo.py lines 36-37 (MK) and 31-32 (BDAG):
`max(min(x, 1.0), 0)` — proportions are clamped into [0,1]. -/
def clampProportion (x : ℚ) : ℚ := max (min x 1) 0

/-- The startup processing of the two proportion options: both are clamped;
no error path exists. -/
def processProportions (d t : ℚ) : ℚ × ℚ := (clampProportion d, clampProportion t)

/-- The configuration error of the spec's error taxonomy. -/
inductive ConfigError
  | outOfRange
deriving DecidableEq

/-- Modelled from the spec: "ConfigurationError (out-of-range proportions,
non-existent input paths) — fatal at startup, before any mutation occurs".
No such check exists in the source (both prepare-transgeo.py variants clamp
instead); this definition follows the spec's words, for comparison. -/
def checkProportions_spec (d t : ℚ) : Except ConfigError (ℚ × ℚ) :=
  if d < 0 ∨ 1 < d then Except.error ConfigError.outOfRange
  else if t < 0 ∨ 1 < t then Except.error ConfigError.outOfRange
  else Except.ok (d, t)

/-- A concrete valid sampler: the first k elements. -/
def takePick : List String → Nat → List String := fun pop k => pop.take k

/-- A second concrete valid sampler: the first k elements of the reversal. -/
def revPick : List String → Nat → List String := fun pop k => pop.reverse.take k

/-- A concrete pixel-transform oracle (used only to instantiate closed
counterexamples; the emitted line structure does not depend on it). -/
def tpxZero : String → String → Int × Int := fun _ _ => (0, 0)

/-- Expect one literal character, return the remainder. -/
def expectChar (c : Char) : List Char → Option (List Char)
  | x :: rest => if x = c then some rest else none
  | [] => none

/-- Match the regex piece `\d+\.\d+` at the head of the list, returning the
matched characters and the remainder.  The digit runs are greedy; since a
digit run is never followed by a digit-compatible token in the label
grammars, greedy matching is exactly the regex semantics. -/
def parseUnsignedDec (l : List Char) : Option (List Char × List Char) :=
  if (spanDigits l).1 = [] then none
  else
    match (spanDigits l).2 with
    | '.' :: r3 =>
      if (spanDigits r3).1 = [] then none
      else some ((spanDigits l).1 ++ '.' :: (spanDigits r3).1, (spanDigits r3).2)
    | _ => none

/-- Match the regex piece `-?\d+\.\d+` at the head of the list. -/
def parseSignedDec (l : List Char) : Option (List Char × List Char) :=
  match l with
  | '-' :: rest => (parseUnsignedDec rest).map (fun pr => ('-' :: pr.1, pr.2))
  | _ => parseUnsignedDec l

/-- Match `-?\d+\.\d+` followed by an underscore separator, returning the
capture (as a string) and the remainder past the underscore. -/
def parseCoordU (l : List Char) : Option (String × List Char) :=
  match parseSignedDec l with
  | none => none
  | some (cap, r1) =>
    match expectChar '_' r1 with
    | none => none
    | some r2 => some (String.mk cap, r2)

/-- Match the regex tail `\.png` (re.match imposes nothing after it). -/
def expectPng : List Char → Option (List Char)
  | '.' :: 'p' :: 'n' :: 'g' :: rest => some rest
  | _ => none

/-- The textual shape of a `-?\d+\.\d+` capture: an optional minus sign, a
nonempty digit run, a dot, a nonempty digit run. -/
def DecShape (cap : List Char) : Prop :=
  ∃ s ip fp, (s = ([] : List Char) ∨ s = ['-']) ∧ cap = s ++ ip ++ '.' :: fp ∧
    ip ≠ [] ∧ fp ≠ [] ∧ (∀ c ∈ ip, c.isDigit = true) ∧ (∀ c ∈ fp, c.isDigit = true)

/-- The eleven capture groups of the aerial label regex of
image-manifest.py line 31, in source order.  All fields are the raw matched
substrings: the source stores `match.groupdict()` values without
conversion. -/
structure AerialFields where
  tileId : String
  centerLon : String
  centerLat : String
  minPosLon : String
  maxPosLat : String
  maxPosLon : String
  minPosLat : String
  minSemiLon : String
  maxSemiLat : String
  maxSemiLon : String
  minSemiLat : String
deriving DecidableEq

/-- `aerial_label_re.match(name)` of image-manifest.py line 31:
`(?P<id>\d+)` then ten `_`-separated `-?\d+\.\d+` captures, then `\.png`.
`re.match` anchors only at the start, so trailing characters after ".png"
are allowed. -/
def parseAerial (name : String) : Option AerialFields :=
  if (spanDigits name.data).1 = [] then none
  else do
    let r1 ← expectChar '_' (spanDigits name.data).2
    let pr2 ← parseCoordU r1
    let pr3 ← parseCoordU pr2.2
    let pr4 ← parseCoordU pr3.2
    let pr5 ← parseCoordU pr4.2
    let pr6 ← parseCoordU pr5.2
    let pr7 ← parseCoordU pr6.2
    let pr8 ← parseCoordU pr7.2
    let pr9 ← parseCoordU pr8.2
    let pr10 ← parseCoordU pr9.2
    let prLast ← parseSignedDec pr10.2
    let _ ← expectPng prLast.2
    pure { tileId := String.mk (spanDigits name.data).1, centerLon := pr2.1,
           centerLat := pr3.1, minPosLon := pr4.1, maxPosLat := pr5.1,
           maxPosLon := pr6.1, minPosLat := pr7.1, minSemiLon := pr8.1,
           maxSemiLat := pr9.1, maxSemiLon := pr10.1,
           minSemiLat := String.mk prLast.1 }

/-- image-manifest.py lines 39-62: scan the aerial image names; a name that
does not match the label format is skipped (the loop `continue`s), a
matching name contributes its manifest entry keyed by the name. -/
def scanAerial : List String → List (String × AerialFields)
  | [] => []
  | n :: rest =>
    match parseAerial n with
    | none => scanAerial rest
    | some f => (n, f) :: scanAerial rest

/-- The accumulated effect on one aerial item of removing a list of ground
keys in order. -/
def multiScrubG (gs : List String) (ai : AerialItem) : AerialItem :=
  gs.foldl (fun ai g => scrubGround g ai) ai

/-- A ground item template for concrete instances. -/
def giBase : GroundItem :=
  { w := 300
    h := 100
    lon := "77.5"
    lat := "18.5"
    positive := []
    semiPositive := [] }

/-- An aerial item template for concrete instances. -/
def aiBase : AerialItem :=
  { tileId := "1"
    w := 640
    h := 640
    centerLon := "20.0"
    centerLat := "50.5"
    posLon0 := "10.0"
    posLat0 := "51.0"
    posLon1 := "30.0"
    posLat1 := "50.0"
    semiLon0 := "5.0"
    semiLat0 := "51.0"
    semiLon1 := "40.0"
    semiLat1 := "50.0"
    positive := []
    semiPositive := [] }

/-- A ground image located at longitude 2.5, latitude 50.5 (capture strings
as the manifest stores them). -/
def giC2 : GroundItem :=
  { giBase with lon := "2.5", lat := "50.5" }

/-- A tile whose positive boundary is lon [10.0, 30.0] × lat [50.0, 51.0]
and semi-positive boundary lon [5.0, 40.0] × lat [50.0, 51.0]. -/
def aiC2 : AerialItem := aiBase

/-- A small well-formed manifest: one tile positively linked to one ground
image and semi-positively linked to another. -/
def mC1 : Manifest :=
  { aerial := [("A.png", { aiBase with positive := ["g.png"], semiPositive := ["h.png"] })]
    ground := [("g.png", { giBase with positive := ["A.png"] }),
               ("h.png", { giBase with semiPositive := ["A.png"] })] }

/-- The capping scenario tile: five positive panoramas. -/
def aiT1 : AerialItem :=
  { aiBase with positive := ["g1", "g2", "g3", "g4", "g5"] }

/-- The capping scenario manifest: tile T1 with five positive ground images,
one of which (g3) also has a semi-positive edge to another tile T2. -/
def mC5 : Manifest :=
  { aerial := [("T1", aiT1),
               ("T2", { aiBase with semiPositive := ["g3"] })]
    ground := [("g1", { giBase with positive := ["T1"] }),
               ("g2", { giBase with positive := ["T1"] }),
               ("g3", { giBase with positive := ["T1"], semiPositive := ["T2"] }),
               ("g4", { giBase with positive := ["T1"] }),
               ("g5", { giBase with positive := ["T1"] })] }

/-- A manifest in which ground image g.png has two positive tiles and three
semi-positive tiles. -/
def mC6 : Manifest :=
  { aerial := [("A.png", { aiBase with positive := ["g.png"] }),
               ("B.png", { aiBase with positive := ["g.png"] }),
               ("S1.png", { aiBase with semiPositive := ["g.png"] }),
               ("S2.png", { aiBase with semiPositive := ["g.png"] }),
               ("S3.png", { aiBase with semiPositive := ["g.png"] })]
    ground := [("g.png", { giBase with positive := ["A.png", "B.png"],
                                       semiPositive := ["S1.png", "S2.png", "S3.png"] })] }

/-- A ground item with one positive tile and three semi-positive tiles. -/
def giC6ok : GroundItem :=
  { giBase with positive := ["A.png"], semiPositive := ["S1.png", "S2.png", "S3.png"] }

/-- A manifest whose only ground image has one positive tile and three
semi-positive tiles. -/
def mC6ok : Manifest :=
  { aerial := [("A.png", { aiBase with positive := ["g.png"] }),
               ("S1.png", { aiBase with semiPositive := ["g.png"] }),
               ("S2.png", { aiBase with semiPositive := ["g.png"] }),
               ("S3.png", { aiBase with semiPositive := ["g.png"] })]
    ground := [("g.png", giC6ok)] }

/-- The identity shuffle oracle. -/
def idShuffle : List Nat → List Nat := fun l => l

/-- A well-formed aerial label filename with identifier text "007". -/
def nC4 : String := "007_1.5_2.5_3.5_4.5_5.5_6.5_7.5_8.5_9.5_10.5.png"

/-- The capture fields of `nC4` (raw substrings, as the code returns them). -/
def fC4 : AerialFields :=
  { tileId := "007"
    centerLon := "1.5"
    centerLat := "2.5"
    minPosLon := "3.5"
    maxPosLat := "4.5"
    maxPosLon := "5.5"
    minPosLat := "6.5"
    minSemiLon := "7.5"
    maxSemiLat := "8.5"
    maxSemiLon := "9.5"
    minSemiLat := "10.5" }

/-- Two ground keys from the same sol 1, one from sol 2. -/
def keysC8 : List String := ["a_0001_x.png", "b_0001_y.png", "c_0002_z.png"]

section Lemmas

theorem lookupKey_mem {α : Type} {l : List (String × α)} {k : String} {v : α}
    (h : lookupKey l k = some v) : (k, v) ∈ l := by
  unfold lookupKey at h
  cases hf : l.find? (fun p => p.1 == k) with
  | none => rw [hf] at h; simp at h
  | some p =>
    rw [hf] at h
    simp at h
    have hm := List.mem_of_find?_eq_some hf
    have hp := List.find?_some hf
    have hk : p.1 = k := by simpa using hp
    have hpv : p = (k, v) := by
      cases p
      simp_all
    rwa [hpv] at hm

theorem mem_removeGround_ground {m : Manifest} {g : String} {p : String × GroundItem} :
    p ∈ (removeGroundImage g m).ground ↔ p ∈ m.ground ∧ p.1 ≠ g := by
  unfold removeGroundImage
  simp [List.mem_filter]

theorem mem_removeGround_aerial {m : Manifest} {g : String} {q : String × AerialItem} :
    q ∈ (removeGroundImage g m).aerial ↔
      ∃ ai, (q.1, ai) ∈ m.aerial ∧ q.2 = scrubGround g ai := by
  unfold removeGroundImage
  simp only [List.mem_map]
  constructor
  · rintro ⟨q0, hq0, rfl⟩
    exact ⟨q0.2, hq0, rfl⟩
  · rintro ⟨ai, hai, hq⟩
    refine ⟨(q.1, ai), hai, ?_⟩
    cases q
    simp_all

theorem mem_removeAerial_aerial {m : Manifest} {a : String} {q : String × AerialItem} :
    q ∈ (removeAerialImage a m).aerial ↔ q ∈ m.aerial ∧ q.1 ≠ a := by
  unfold removeAerialImage
  simp [List.mem_filter]

theorem mem_removeAerial_ground {m : Manifest} {a : String} {p : String × GroundItem} :
    p ∈ (removeAerialImage a m).ground ↔
      ∃ gi, (p.1, gi) ∈ m.ground ∧ p.2 = scrubAerial a gi := by
  unfold removeAerialImage
  simp only [List.mem_map]
  constructor
  · rintro ⟨p0, hp0, rfl⟩
    exact ⟨p0.2, hp0, rfl⟩
  · rintro ⟨gi, hgi, hp⟩
    refine ⟨(p.1, gi), hgi, ?_⟩
    cases p
    simp_all

theorem keys_removeGround_aerial (m : Manifest) (g : String) :
    (removeGroundImage g m).aerial.map Prod.fst = m.aerial.map Prod.fst := by
  unfold removeGroundImage
  simp [List.map_map]

theorem keys_removeAerial_ground (m : Manifest) (a : String) :
    (removeAerialImage a m).ground.map Prod.fst = m.ground.map Prod.fst := by
  unfold removeAerialImage
  simp [List.map_map]

theorem scrubGround_positive (g : String) (ai : AerialItem) :
    (scrubGround g ai).positive = ai.positive.erase g := rfl

theorem scrubGround_semi (g : String) (ai : AerialItem) :
    (scrubGround g ai).semiPositive = ai.semiPositive.erase g := rfl

theorem scrubAerial_positive (a : String) (gi : GroundItem) :
    (scrubAerial a gi).positive = gi.positive.erase a := rfl

theorem scrubAerial_semi (a : String) (gi : GroundItem) :
    (scrubAerial a gi).semiPositive = gi.semiPositive.erase a := rfl

theorem WF_removeGround {m : Manifest} (hwf : WF m) (g : String) :
    WF (removeGroundImage g m) := by
  obtain ⟨⟨hka, hkg⟩, ⟨hla, hlg⟩, hbc, ⟨hma, hmg⟩⟩ := hwf
  refine ⟨⟨?_, ?_⟩, ⟨?_, ?_⟩, ?_, ⟨?_, ?_⟩⟩
  · rw [keys_removeGround_aerial]; exact hka
  · unfold removeGroundImage
    exact List.Nodup.sublist ((List.filter_sublist _).map Prod.fst) hkg
  · intro q hq
    obtain ⟨ai, hai, hq2⟩ := mem_removeGround_aerial.mp hq
    obtain ⟨h1, h2⟩ := hla (q.1, ai) hai
    rw [hq2, scrubGround_positive, scrubGround_semi]
    exact ⟨h1.erase g, h2.erase g⟩
  · intro p hp
    exact hlg p (mem_removeGround_ground.mp hp).1
  · intro p hp q hq
    obtain ⟨hpm, hpne⟩ := mem_removeGround_ground.mp hp
    obtain ⟨ai, hai, hq2⟩ := mem_removeGround_aerial.mp hq
    obtain ⟨hb1, hb2⟩ := hbc p hpm (q.1, ai) hai
    rw [hq2, scrubGround_positive, scrubGround_semi]
    constructor
    · rw [List.mem_erase_of_ne hpne]; exact hb1
    · rw [List.mem_erase_of_ne hpne]; exact hb2
  · intro q hq x hx
    obtain ⟨ai, hai, hq2⟩ := mem_removeGround_aerial.mp hq
    rw [hq2, scrubGround_positive] at hx
    rw [hq2, scrubGround_semi]
    intro hx2
    exact hma (q.1, ai) hai x (List.mem_of_mem_erase hx) (List.mem_of_mem_erase hx2)
  · intro p hp
    exact hmg p (mem_removeGround_ground.mp hp).1

theorem WF_removeAerial {m : Manifest} (hwf : WF m) (a : String) :
    WF (removeAerialImage a m) := by
  obtain ⟨⟨hka, hkg⟩, ⟨hla, hlg⟩, hbc, ⟨hma, hmg⟩⟩ := hwf
  refine ⟨⟨?_, ?_⟩, ⟨?_, ?_⟩, ?_, ⟨?_, ?_⟩⟩
  · unfold removeAerialImage
    exact List.Nodup.sublist ((List.filter_sublist _).map Prod.fst) hka
  · rw [keys_removeAerial_ground]; exact hkg
  · intro q hq
    exact hla q (mem_removeAerial_aerial.mp hq).1
  · intro p hp
    obtain ⟨gi, hgi, hp2⟩ := mem_removeAerial_ground.mp hp
    obtain ⟨h1, h2⟩ := hlg (p.1, gi) hgi
    rw [hp2, scrubAerial_positive, scrubAerial_semi]
    exact ⟨h1.erase a, h2.erase a⟩
  · intro p hp q hq
    obtain ⟨gi, hgi, hp2⟩ := mem_removeAerial_ground.mp hp
    obtain ⟨hqm, hqne⟩ := mem_removeAerial_aerial.mp hq
    obtain ⟨hb1, hb2⟩ := hbc (p.1, gi) hgi q hqm
    rw [hp2, scrubAerial_positive, scrubAerial_semi]
    constructor
    · rw [List.mem_erase_of_ne hqne]; exact hb1
    · rw [List.mem_erase_of_ne hqne]; exact hb2
  · intro q hq
    exact hma q (mem_removeAerial_aerial.mp hq).1
  · intro p hp x hx
    obtain ⟨gi, hgi, hp2⟩ := mem_removeAerial_ground.mp hp
    rw [hp2, scrubAerial_positive] at hx
    rw [hp2, scrubAerial_semi]
    intro hx2
    exact hmg (p.1, gi) hgi x (List.mem_of_mem_erase hx) (List.mem_of_mem_erase hx2)

theorem WF_foldRemoveGround {gs : List String} {m : Manifest} (hwf : WF m) :
    WF (gs.foldl (fun acc g => removeGroundImage g acc) m) := by
  induction gs generalizing m with
  | nil => exact hwf
  | cons g gs ih => exact ih (WF_removeGround hwf g)

theorem WF_foldRemoveAerial {as : List String} {m : Manifest} (hwf : WF m) :
    WF (as.foldl (fun acc a => removeAerialImage a acc) m) := by
  induction as generalizing m with
  | nil => exact hwf
  | cons a as ih => exact ih (WF_removeAerial hwf a)

theorem foldRemoveGround_ground_mem {gs : List String} {m : Manifest}
    {p : String × GroundItem} :
    p ∈ (gs.foldl (fun acc g => removeGroundImage g acc) m).ground ↔
      p ∈ m.ground ∧ p.1 ∉ gs := by
  induction gs generalizing m with
  | nil => simp
  | cons g gs ih =>
    simp only [List.foldl_cons]
    rw [ih, mem_removeGround_ground]
    simp only [List.mem_cons]
    tauto

theorem foldRemoveGround_aerial (gs : List String) (m : Manifest) :
    (gs.foldl (fun acc g => removeGroundImage g acc) m).aerial =
      m.aerial.map (fun q => (q.1, multiScrubG gs q.2)) := by
  induction gs generalizing m with
  | nil =>
    show m.aerial = _
    simp [multiScrubG]
  | cons g gs ih =>
    simp only [List.foldl_cons]
    rw [ih]
    unfold removeGroundImage
    simp only [List.map_map]
    rfl

theorem mem_foldl_erase {gs : List String} {l : List String} (hnd : l.Nodup) {x : String} :
    x ∈ gs.foldl (fun l g => l.erase g) l ↔ x ∈ l ∧ x ∉ gs := by
  induction gs generalizing l with
  | nil => simp
  | cons g gs ih =>
    simp only [List.foldl_cons]
    rw [ih (hnd.erase g), hnd.mem_erase_iff]
    simp only [List.mem_cons]
    tauto

theorem nodup_foldl_erase {gs : List String} {l : List String} (hnd : l.Nodup) :
    (gs.foldl (fun l g => l.erase g) l).Nodup := by
  induction gs generalizing l with
  | nil => exact hnd
  | cons g gs ih => exact ih (hnd.erase g)

theorem multiScrubG_positive (gs : List String) (ai : AerialItem) :
    (multiScrubG gs ai).positive = gs.foldl (fun l g => l.erase g) ai.positive := by
  induction gs generalizing ai with
  | nil => rfl
  | cons g gs ih =>
    show (multiScrubG gs (scrubGround g ai)).positive =
      gs.foldl (fun l g => l.erase g) (ai.positive.erase g)
    rw [ih]
    rfl

theorem multiScrubG_semi (gs : List String) (ai : AerialItem) :
    (multiScrubG gs ai).semiPositive = gs.foldl (fun l g => l.erase g) ai.semiPositive := by
  induction gs generalizing ai with
  | nil => rfl
  | cons g gs ih =>
    show (multiScrubG gs (scrubGround g ai)).semiPositive =
      gs.foldl (fun l g => l.erase g) (ai.semiPositive.erase g)
    rw [ih]
    rfl

theorem nodup_keys_unique {α : Type} {l : List (String × α)} {k : String} {v1 v2 : α}
    (h1 : (k, v1) ∈ l) (h2 : (k, v2) ∈ l) (hnd : (l.map Prod.fst).Nodup) : v1 = v2 := by
  induction l with
  | nil => cases h1
  | cons q l ih =>
    simp only [List.map_cons, List.nodup_cons] at hnd
    rcases List.mem_cons.mp h1 with h1h | h1t
    · rcases List.mem_cons.mp h2 with h2h | h2t
      · rw [← h1h] at h2h
        exact (Prod.mk.injEq _ _ _ _ ▸ h2h).2.symm ▸ rfl
      · exfalso
        apply hnd.1
        rw [← h1h]
        exact List.mem_map.mpr ⟨(k, v2), h2t, rfl⟩
    · rcases List.mem_cons.mp h2 with h2h | h2t
      · exfalso
        apply hnd.1
        rw [← h2h]
        exact List.mem_map.mpr ⟨(k, v1), h1t, rfl⟩
      · exact ih h1t h2t hnd.2

theorem lookupKey_of_mem {α : Type} {l : List (String × α)} {k : String} {v : α}
    (h : (k, v) ∈ l) (hnd : (l.map Prod.fst).Nodup) : lookupKey l k = some v := by
  induction l with
  | nil => cases h
  | cons q l ih =>
    simp only [List.map_cons, List.nodup_cons] at hnd
    rcases List.mem_cons.mp h with hh | ht
    · unfold lookupKey
      rw [← hh]
      simp [List.find?_cons]
    · have hne : q.1 ≠ k := by
        intro he
        apply hnd.1
        rw [he]
        exact List.mem_map.mpr ⟨(k, v), ht, rfl⟩
      unfold lookupKey at ih ⊢
      rw [List.find?_cons]
      have : (q.1 == k) = false := by simpa using hne
      rw [this]
      exact ih ht hnd.2

theorem ground_setPositiveList (m : Manifest) (a : String) (ps : List String) :
    (setPositiveList m a ps).ground = m.ground := rfl

theorem keys_setPositiveList (m : Manifest) (a : String) (ps : List String) :
    (setPositiveList m a ps).aerial.map Prod.fst = m.aerial.map Prod.fst := by
  unfold setPositiveList
  rw [List.map_map]
  apply List.map_congr_left
  intro q _
  by_cases h : q.1 = a <;> simp [h]

theorem mem_setPositiveList {m : Manifest} {a : String} {ps : List String}
    {q : String × AerialItem} :
    q ∈ (setPositiveList m a ps).aerial ↔
      (∃ ai0, (a, ai0) ∈ m.aerial ∧ q = (a, { ai0 with positive := ps })) ∨
      (q ∈ m.aerial ∧ q.1 ≠ a) := by
  unfold setPositiveList
  simp only [List.mem_map]
  constructor
  · rintro ⟨q0, hq0, rfl⟩
    by_cases h : q0.1 == a
    · left
      have ha : q0.1 = a := by simpa using h
      refine ⟨q0.2, ?_, ?_⟩
      · rw [← ha]; exact hq0
      · simp [h, ha]
    · right
      simp only [h]
      simp only [Bool.false_eq_true, if_false]
      exact ⟨hq0, by simpa using h⟩
  · rintro (⟨ai0, hai0, rfl⟩ | ⟨hq, hne⟩)
    · refine ⟨(a, ai0), hai0, ?_⟩
      simp
    · refine ⟨q, hq, ?_⟩
      have : (q.1 == a) = false := by simpa using hne
      simp [this]

theorem mem_foldRemoveGround_aerial {gs : List String} {m : Manifest}
    {q : String × AerialItem} :
    q ∈ (gs.foldl (fun acc g => removeGroundImage g acc) m).aerial ↔
      ∃ ai0, (q.1, ai0) ∈ m.aerial ∧ q.2 = multiScrubG gs ai0 := by
  rw [foldRemoveGround_aerial]
  simp only [List.mem_map]
  constructor
  · rintro ⟨q0, hq0, rfl⟩
    exact ⟨q0.2, hq0, rfl⟩
  · rintro ⟨ai0, hai0, hq⟩
    refine ⟨(q.1, ai0), hai0, ?_⟩
    cases q
    simp_all

theorem keys_foldRemoveGround (gs : List String) (m : Manifest) :
    (gs.foldl (fun acc g => removeGroundImage g acc) m).aerial.map Prod.fst =
      m.aerial.map Prod.fst := by
  rw [foldRemoveGround_aerial]
  simp [List.map_map]

theorem capOne_eq {pick : List String → Nat → List String} {maxPos : Nat}
    {m : Manifest} {a : String} {ai : AerialItem}
    (ha : lookupKey m.aerial a = some ai)
    (hg : maxPos ≠ 0 ∧ maxPos < ai.positive.length) :
    capOne pick maxPos m a =
      setPositiveList
        ((ai.positive.filter (fun g => decide (g ∉ pick ai.positive maxPos))).foldl
          (fun acc g => removeGroundImage g acc) m)
        a (pick ai.positive maxPos) := by
  simp only [capOne, ha]
  rw [if_pos hg]

theorem mem_capLeftovers {samp : List String} {l : List String} {x : String} :
    x ∈ l.filter (fun g => decide (g ∉ samp)) ↔ x ∈ l ∧ x ∉ samp := by
  simp [List.mem_filter]

theorem WF_capOne {pick : List String → Nat → List String} {maxPos : Nat}
    {m : Manifest} {a : String} (hpick : SamplerSpec pick) (hwf : WF m) :
    WF (capOne pick maxPos m a) := by
  cases hl : lookupKey m.aerial a with
  | none => unfold capOne; rw [hl]; exact hwf
  | some ai =>
    by_cases hg : maxPos ≠ 0 ∧ maxPos < ai.positive.length
    · rw [capOne_eq hl hg]
      have haim : (a, ai) ∈ m.aerial := lookupKey_mem hl
      have hipos_nd : ai.positive.Nodup := (hwf.2.1.1 (a, ai) haim).1
      have hsamp_sub := (hpick ai.positive maxPos).1
      have hsamp_nd : (pick ai.positive maxPos).Nodup :=
        (hpick ai.positive maxPos).2.1 hipos_nd
      set samp := pick ai.positive maxPos with hsampdef
      set leftovers := ai.positive.filter (fun g => decide (g ∉ samp)) with hleftdef
      set m1 := leftovers.foldl (fun acc g => removeGroundImage g acc) m with hm1def
      have hwf1 : WF m1 := WF_foldRemoveGround hwf
      obtain ⟨⟨hka1, hkg1⟩, ⟨hla1, hlg1⟩, hbc1, ⟨hma1, hmg1⟩⟩ := hwf1
      refine ⟨⟨?_, ?_⟩, ⟨?_, ?_⟩, ?_, ⟨?_, ?_⟩⟩
      · rw [keys_setPositiveList]; exact hka1
      · rw [ground_setPositiveList]; exact hkg1
      · intro q hq
        rcases mem_setPositiveList.mp hq with ⟨ai0, hai0, rfl⟩ | ⟨hq1, _⟩
        · exact ⟨hsamp_nd, (hla1 (a, ai0) hai0).2⟩
        · exact hla1 q hq1
      · intro p hp
        rw [ground_setPositiveList] at hp
        exact hlg1 p hp
      · intro p hp q hq
        rw [ground_setPositiveList] at hp
        rcases mem_setPositiveList.mp hq with ⟨ai0, hai0, rfl⟩ | ⟨hq1, _⟩
        · obtain ⟨hpm, hpnl⟩ := foldRemoveGround_ground_mem.mp hp
          constructor
          · have hb := (hwf.2.2.1 p hpm (a, ai) haim).1
            simp only at hb ⊢
            rw [hb]
            constructor
            · intro hpp
              by_contra hns
              exact hpnl (mem_capLeftovers.mpr ⟨hpp, hns⟩)
            · intro hps
              exact hsamp_sub p.1 hps
          · have hb := (hbc1 p hp (a, ai0) hai0).2
            simpa using hb
        · exact hbc1 p hp q hq1
      · intro q hq x hx
        rcases mem_setPositiveList.mp hq with ⟨ai0, hai0, rfl⟩ | ⟨hq1, _⟩
        · simp only at hx ⊢
          obtain ⟨ai1, hai1, he1⟩ := mem_foldRemoveGround_aerial.mp hai0
          have heq : ai1 = ai := nodup_keys_unique (hai1 : (a, ai1) ∈ m.aerial) haim hwf.1.1
          have he2 : ai0 = multiScrubG leftovers ai := by
            rw [heq] at he1
            exact he1
          have hsemi_nd : ai.semiPositive.Nodup := (hwf.2.1.1 (a, ai) haim).2
          rw [he2, multiScrubG_semi, mem_foldl_erase hsemi_nd]
          rintro ⟨hxs, _⟩
          exact hwf.2.2.2.1 (a, ai) haim x (hsamp_sub x hx) hxs
        · exact hma1 q hq1 x hx
      · intro p hp
        rw [ground_setPositiveList] at hp
        exact hmg1 p hp
    · simp only [capOne, hl]
      rw [if_neg hg]
      exact hwf

theorem WF_condRemove {m : Manifest} (hwf : WF m) (k : String) :
    WF (if containsKey m.aerial k then removeAerialImage k m
        else if containsKey m.ground k then removeGroundImage k m else m) := by
  by_cases h1 : containsKey m.aerial k
  · rw [if_pos h1]; exact WF_removeAerial hwf k
  · rw [if_neg h1]
    by_cases h2 : containsKey m.ground k
    · rw [if_pos h2]; exact WF_removeGround hwf k
    · rw [if_neg h2]; exact hwf

theorem WF_foldCondRemove {ks : List String} {m : Manifest} (hwf : WF m) :
    WF (ks.foldl (fun acc2 k =>
      if containsKey acc2.aerial k then removeAerialImage k acc2
      else if containsKey acc2.ground k then removeGroundImage k acc2
      else acc2) m) := by
  induction ks generalizing m with
  | nil => exact hwf
  | cons k ks ih => exact ih (WF_condRemove hwf k)

theorem WF_dedupOuter {keys : List String} {names : List String} {m : Manifest}
    (hwf : WF m) :
    WF (names.foldl (fun acc nm =>
      let group := keys.filter (fun k => baseName k == nm)
      if group.length ≤ 1 then acc
      else (group.drop 1).foldl (fun acc2 k =>
        if containsKey acc2.aerial k then removeAerialImage k acc2
        else if containsKey acc2.ground k then removeGroundImage k acc2
        else acc2) acc) m) := by
  induction names generalizing m with
  | nil => exact hwf
  | cons nm names ih =>
    rw [List.foldl_cons]
    apply ih
    show WF (if (keys.filter (fun k => baseName k == nm)).length ≤ 1 then m
      else ((keys.filter (fun k => baseName k == nm)).drop 1).foldl _ m)
    by_cases h : (keys.filter (fun k => baseName k == nm)).length ≤ 1
    · rw [if_pos h]; exact hwf
    · rw [if_neg h]; exact WF_foldCondRemove hwf

theorem WF_dedupPass {m : Manifest} (hwf : WF m) : WF (dedupPass m) := by
  unfold dedupPass
  exact WF_dedupOuter hwf

theorem WF_spacePass {m : Manifest} (hwf : WF m) : WF (spacePass m) := by
  unfold spacePass
  generalize (m.aerial.map Prod.fst ++ m.ground.map Prod.fst) = ks
  induction ks generalizing m with
  | nil => exact hwf
  | cons k ks ih =>
    rw [List.foldl_cons]
    apply ih
    by_cases h : (baseName k).contains ' '
    · rw [if_pos h]; exact WF_condRemove hwf k
    · rw [if_neg h]; exact hwf

theorem WF_panoramaPass {m : Manifest} (hwf : WF m) (minAspect : ℚ) :
    WF (panoramaPass minAspect m) := by
  unfold panoramaPass
  exact WF_foldRemoveGround hwf

theorem WF_capPass {pick : List String → Nat → List String} {maxPos : Nat}
    {m : Manifest} (hpick : SamplerSpec pick) (hwf : WF m) :
    WF (capPass pick maxPos m) := by
  unfold capPass
  generalize (m.aerial.map Prod.fst) = ks
  induction ks generalizing m with
  | nil => exact hwf
  | cons a ks ih =>
    rw [List.foldl_cons]
    exact ih (WF_capOne hpick hwf)

theorem WF_distractionPass {pick : List String → Nat → List String} {keepProp : ℚ}
    {m : Manifest} (hwf : WF m) :
    WF (distractionPass pick keepProp m) := by
  unfold distractionPass
  exact WF_foldRemoveAerial hwf

theorem WF_minSemiPass {m : Manifest} (hwf : WF m) : WF (minSemiPass m) := by
  unfold minSemiPass
  exact WF_foldRemoveGround hwf

theorem removeGround_scrubbed {m : Manifest} (hwf : WF m) (g : String) :
    (∀ p ∈ (removeGroundImage g m).ground, p.1 ≠ g) ∧
    (∀ q ∈ (removeGroundImage g m).aerial, g ∉ q.2.positive ∧ g ∉ q.2.semiPositive) := by
  constructor
  · intro p hp
    exact (mem_removeGround_ground.mp hp).2
  · intro q hq
    obtain ⟨ai, hai, hq2⟩ := mem_removeGround_aerial.mp hq
    obtain ⟨h1, h2⟩ := hwf.2.1.1 (q.1, ai) hai
    rw [hq2, scrubGround_positive, scrubGround_semi]
    constructor
    · intro hin
      exact ((h1.mem_erase_iff.mp hin).1) rfl
    · intro hin
      exact ((h2.mem_erase_iff.mp hin).1) rfl

theorem removeAerial_scrubbed {m : Manifest} (hwf : WF m) (a : String) :
    (∀ q ∈ (removeAerialImage a m).aerial, q.1 ≠ a) ∧
    (∀ p ∈ (removeAerialImage a m).ground, a ∉ p.2.positive ∧ a ∉ p.2.semiPositive) := by
  constructor
  · intro q hq
    exact (mem_removeAerial_aerial.mp hq).2
  · intro p hp
    obtain ⟨gi, hgi, hp2⟩ := mem_removeAerial_ground.mp hp
    obtain ⟨h1, h2⟩ := hwf.2.1.2 (p.1, gi) hgi
    rw [hp2, scrubAerial_positive, scrubAerial_semi]
    constructor
    · intro hin
      exact ((h1.mem_erase_iff.mp hin).1) rfl
    · intro hin
      exact ((h2.mem_erase_iff.mp hin).1) rfl

theorem samplerSpec_takePick : SamplerSpec takePick := by
  intro pop k
  refine ⟨?_, ?_, ?_⟩
  · intro x hx
    exact List.take_subset k pop hx
  · intro hnd
    exact List.Nodup.sublist (List.take_sublist k pop) hnd
  · intro hk
    simp only [takePick, List.length_take]
    omega

theorem spanDigits_append (l : List Char) : (spanDigits l).1 ++ (spanDigits l).2 = l :=
  List.takeWhile_append_dropWhile Char.isDigit l

theorem mem_spanDigits_isDigit {l : List Char} {c : Char} (h : c ∈ (spanDigits l).1) :
    c.isDigit = true :=
  List.mem_takeWhile_imp h

theorem expectChar_sound {c : Char} {l rest : List Char}
    (h : expectChar c l = some rest) : l = c :: rest := by
  unfold expectChar at h
  split at h
  · rename_i x r
    split at h
    · rename_i hx
      cases h
      rw [hx]
    · cases h
  · cases h

theorem expectPng_sound {l rest : List Char} (h : expectPng l = some rest) :
    l = '.' :: 'p' :: 'n' :: 'g' :: rest := by
  unfold expectPng at h
  split at h
  · cases h
    rfl
  · cases h

theorem parseUnsignedDec_sound {l cap rest : List Char}
    (h : parseUnsignedDec l = some (cap, rest)) :
    l = cap ++ rest ∧
    ∃ ip fp, cap = ip ++ '.' :: fp ∧ ip ≠ [] ∧ fp ≠ [] ∧
      (∀ c ∈ ip, c.isDigit = true) ∧ (∀ c ∈ fp, c.isDigit = true) := by
  unfold parseUnsignedDec at h
  split at h
  · cases h
  · rename_i hip
    split at h
    · rename_i r3 hr
      split at h
      · cases h
      · rename_i hfp
        injection h with h1
        injection h1 with hcap hrest
        subst hcap hrest
        constructor
        · refine Eq.symm ?_
          calc ((spanDigits l).1 ++ '.' :: (spanDigits r3).1) ++ (spanDigits r3).2
              = (spanDigits l).1 ++ '.' :: ((spanDigits r3).1 ++ (spanDigits r3).2) := by
                simp [List.append_assoc]
            _ = (spanDigits l).1 ++ '.' :: r3 := by rw [spanDigits_append r3]
            _ = (spanDigits l).1 ++ (spanDigits l).2 := by rw [hr]
            _ = l := spanDigits_append l
        · exact ⟨(spanDigits l).1, (spanDigits r3).1, rfl, hip, hfp,
            fun c hc => mem_spanDigits_isDigit hc,
            fun c hc => mem_spanDigits_isDigit hc⟩
    · cases h

theorem parseSignedDec_sound {l cap rest : List Char}
    (h : parseSignedDec l = some (cap, rest)) :
    l = cap ++ rest ∧ DecShape cap := by
  unfold parseSignedDec at h
  split at h
  · rename_i tail
    simp only [Option.map_eq_some'] at h
    obtain ⟨pr, hpr, hpr2⟩ := h
    obtain ⟨hl, ip, fp, hcap, hip, hfp, hd1, hd2⟩ := parseUnsignedDec_sound
      (show parseUnsignedDec tail = some (pr.1, pr.2) by rw [hpr])
    injection hpr2 with hc hr
    constructor
    · rw [← hc, ← hr, hl]
      rfl
    · exact ⟨['-'], ip, fp, Or.inr rfl, by rw [← hc, hcap]; rfl, hip, hfp, hd1, hd2⟩
  · obtain ⟨hl, ip, fp, hcap, hip, hfp, hd1, hd2⟩ := parseUnsignedDec_sound h
    exact ⟨hl, [], ip, fp, Or.inl rfl, by rw [hcap]; rfl, hip, hfp, hd1, hd2⟩

theorem parseCoordU_sound {l : List Char} {s : String} {rest : List Char}
    (h : parseCoordU l = some (s, rest)) :
    l = s.data ++ '_' :: rest ∧ DecShape s.data := by
  unfold parseCoordU at h
  split at h
  · cases h
  · rename_i cap r1 hsd
    split at h
    · cases h
    · rename_i r2 hec
      injection h with h1
      injection h1 with hs hr
      obtain ⟨hl, hshape⟩ := parseSignedDec_sound hsd
      have hr1 : r1 = '_' :: r2 := expectChar_sound hec
      subst hs hr
      constructor
      · rw [hl, hr1]
      · exact hshape

theorem parseAerial_sound {n : String} {f : AerialFields} (h : parseAerial n = some f) :
    (∃ tail, n.data = f.tileId.data ++ '_' :: f.centerLon.data ++ '_' :: f.centerLat.data ++
      '_' :: f.minPosLon.data ++ '_' :: f.maxPosLat.data ++ '_' :: f.maxPosLon.data ++
      '_' :: f.minPosLat.data ++ '_' :: f.minSemiLon.data ++ '_' :: f.maxSemiLat.data ++
      '_' :: f.maxSemiLon.data ++ '_' :: f.minSemiLat.data ++
      '.' :: 'p' :: 'n' :: 'g' :: tail) ∧
    f.tileId.data ≠ [] ∧ (∀ c ∈ f.tileId.data, c.isDigit = true) ∧
    DecShape f.centerLon.data ∧ DecShape f.centerLat.data ∧ DecShape f.minPosLon.data ∧
    DecShape f.maxPosLat.data ∧ DecShape f.maxPosLon.data ∧ DecShape f.minPosLat.data ∧
    DecShape f.minSemiLon.data ∧ DecShape f.maxSemiLat.data ∧ DecShape f.maxSemiLon.data ∧
    DecShape f.minSemiLat.data := by
  unfold parseAerial at h
  split at h
  · cases h
  · rename_i hid
    simp only [Option.bind_eq_bind, Option.bind_eq_some, Option.pure_def,
      Option.some_inj] at h
    obtain ⟨r1, h1, pr2, h2, pr3, h3, pr4, h4, pr5, h5, pr6, h6, pr7, h7, pr8, h8,
      pr9, h9, pr10, h10, prL, hL, u, hu, hf⟩ := h
    obtain ⟨e2, s2⟩ := parseCoordU_sound
      (show parseCoordU r1 = some (pr2.1, pr2.2) by rw [h2])
    obtain ⟨e3, s3⟩ := parseCoordU_sound
      (show parseCoordU pr2.2 = some (pr3.1, pr3.2) by rw [h3])
    obtain ⟨e4, s4⟩ := parseCoordU_sound
      (show parseCoordU pr3.2 = some (pr4.1, pr4.2) by rw [h4])
    obtain ⟨e5, s5⟩ := parseCoordU_sound
      (show parseCoordU pr4.2 = some (pr5.1, pr5.2) by rw [h5])
    obtain ⟨e6, s6⟩ := parseCoordU_sound
      (show parseCoordU pr5.2 = some (pr6.1, pr6.2) by rw [h6])
    obtain ⟨e7, s7⟩ := parseCoordU_sound
      (show parseCoordU pr6.2 = some (pr7.1, pr7.2) by rw [h7])
    obtain ⟨e8, s8⟩ := parseCoordU_sound
      (show parseCoordU pr7.2 = some (pr8.1, pr8.2) by rw [h8])
    obtain ⟨e9, s9⟩ := parseCoordU_sound
      (show parseCoordU pr8.2 = some (pr9.1, pr9.2) by rw [h9])
    obtain ⟨e10, s10⟩ := parseCoordU_sound
      (show parseCoordU pr9.2 = some (pr10.1, pr10.2) by rw [h10])
    obtain ⟨eL, sL⟩ := parseSignedDec_sound
      (show parseSignedDec pr10.2 = some (prL.1, prL.2) by rw [hL])
    have e1 : (spanDigits n.data).2 = '_' :: r1 := expectChar_sound h1
    have eu : prL.2 = '.' :: 'p' :: 'n' :: 'g' :: u := expectPng_sound hu
    subst hf
    refine ⟨⟨u, ?_⟩, hid, fun c hc => mem_spanDigits_isDigit hc,
      s2, s3, s4, s5, s6, s7, s8, s9, s10, sL⟩
    show n.data = (spanDigits n.data).1 ++ '_' :: pr2.1.data ++ '_' :: pr3.1.data ++
      '_' :: pr4.1.data ++ '_' :: pr5.1.data ++ '_' :: pr6.1.data ++
      '_' :: pr7.1.data ++ '_' :: pr8.1.data ++ '_' :: pr9.1.data ++
      '_' :: pr10.1.data ++ '_' :: prL.1 ++ '.' :: 'p' :: 'n' :: 'g' :: u
    conv_lhs => rw [← spanDigits_append n.data]
    rw [e1, e2, e3, e4, e5, e6, e7, e8, e9, e10, eL, eu]
    simp [List.append_assoc]

theorem mem_scanAerial {names : List String} {n : String} {f : AerialFields} :
    (n, f) ∈ scanAerial names ↔ n ∈ names ∧ parseAerial n = some f := by
  induction names with
  | nil => simp [scanAerial]
  | cons n0 rest ih =>
    cases hp : parseAerial n0 with
    | none =>
      simp only [scanAerial, hp]
      rw [ih]
      simp only [List.mem_cons]
      constructor
      · rintro ⟨hn, hf⟩
        exact ⟨Or.inr hn, hf⟩
      · rintro ⟨hor, hf⟩
        rcases hor with rfl | hn
        · rw [hp] at hf
          cases hf
        · exact ⟨hn, hf⟩
    | some f0 =>
      simp only [scanAerial, hp]
      rw [List.mem_cons, ih]
      simp only [List.mem_cons, Prod.mk.injEq]
      constructor
      · rintro (⟨rfl, rfl⟩ | ⟨hn, hf⟩)
        · exact ⟨Or.inl rfl, hp⟩
        · exact ⟨Or.inr hn, hf⟩
      · rintro ⟨hor, hf⟩
        rcases hor with rfl | hn
        · rw [hp] at hf
          cases hf
          exact Or.inl ⟨rfl, rfl⟩
        · exact Or.inr ⟨hn, hf⟩

theorem emitSemiLoop_eq {tpx : String → String → Int × Int} {m : Manifest}
    {lonG latG : String} {sas : List String} {acc : String}
    (h : ∀ a ∈ sas, (lookupKey m.aerial a).isSome = true) :
    emitSemiLoop tpx m lonG latG sas acc =
      some (acc ++ strConcat (sas.map (fun sa =>
        match lookupKey m.aerial sa with
        | none => ""
        | some sai => semiEntry tpx lonG latG sa sai))) := by
  induction sas generalizing acc with
  | nil => simp [emitSemiLoop, strConcat]
  | cons sa rest ih =>
    have hsa := h sa (List.mem_cons_self sa rest)
    cases hl : lookupKey m.aerial sa with
    | none => rw [hl] at hsa; cases hsa
    | some sai =>
      simp only [emitSemiLoop, hl]
      rw [ih (fun a ha => h a (List.mem_cons_of_mem sa ha))]
      simp only [List.map_cons, strConcat, hl, Option.some_inj]
      rw [String.append_assoc]

theorem emitPosLoop_eq {tpx : String → String → Int × Int} {m : Manifest}
    {gKey : String} {gi : GroundItem} {as : List String} {acc : String}
    (hsem3 : 3 ≤ gi.semiPositive.length)
    (hsems : ∀ a ∈ gi.semiPositive.take 3, (lookupKey m.aerial a).isSome = true)
    (h : ∀ a ∈ as, (lookupKey m.aerial a).isSome = true) :
    emitPosLoop tpx m gKey gi as acc =
      some (acc ++ strConcat (as.map (lineFor tpx m gKey gi))) := by
  induction as generalizing acc with
  | nil => simp [emitPosLoop, strConcat]
  | cons a rest ih =>
    have hsa := h a (List.mem_cons_self a rest)
    cases hl : lookupKey m.aerial a with
    | none => rw [hl] at hsa; cases hsa
    | some aiA =>
      simp only [emitPosLoop, hl]
      rw [if_neg (by omega : ¬ gi.semiPositive.length < 3)]
      rw [emitSemiLoop_eq hsems]
      dsimp only
      rw [ih (fun a2 ha2 => h a2 (List.mem_cons_of_mem a ha2))]
      simp only [List.map_cons, strConcat, Option.some_inj]
      unfold lineFor semiBlock
      rw [hl]
      simp only [String.append_assoc]

theorem collectSols_err {keys : List String} {k : String} (hk : k ∈ keys)
    (hbad : extractSol k = none) : ∃ e, collectSols keys = Except.error e := by
  induction keys with
  | nil => cases hk
  | cons k0 rest ih =>
    rcases List.mem_cons.mp hk with rfl | hk2
    · exact ⟨k, by simp only [collectSols, hbad]⟩
    · cases hs : extractSol k0 with
      | none => exact ⟨k0, by simp only [collectSols, hs]⟩
      | some n =>
        obtain ⟨e, he⟩ := ih hk2
        refine ⟨e, ?_⟩
        simp only [collectSols, hs, he]
        rfl

theorem collectSols_ok_extract {keys : List String} {sols : List Nat}
    (h : collectSols keys = Except.ok sols) :
    ∀ k ∈ keys, ∃ n, extractSol k = some n := by
  induction keys generalizing sols with
  | nil => intro k hk; cases hk
  | cons k0 rest ih =>
    intro k hk
    cases hs : extractSol k0 with
    | none => rw [collectSols, hs] at h; cases h
    | some n =>
      rw [collectSols, hs] at h
      cases hc : collectSols rest with
      | error e => rw [hc] at h; cases h
      | ok ns =>
        rcases List.mem_cons.mp hk with rfl | hk2
        · exact ⟨n, hs⟩
        · exact ih hc k hk2

theorem assignSplitAux_mem {trainSols : List Nat} {keys : List String}
    {tt0 : List String × List String} {tr te : List String}
    (h : assignSplitAux trainSols keys tt0 = Except.ok (tr, te)) :
    (∀ k, k ∈ tr ↔ k ∈ tt0.1 ∨ (k ∈ keys ∧ ∃ n, extractSol k = some n ∧ n ∈ trainSols)) ∧
    (∀ k, k ∈ te ↔ k ∈ tt0.2 ∨ (k ∈ keys ∧ ∃ n, extractSol k = some n ∧ n ∉ trainSols)) := by
  induction keys generalizing tt0 with
  | nil =>
    rw [assignSplitAux] at h
    injection h with h1
    subst h1
    constructor
    · intro k; simp
    · intro k; simp
  | cons k0 rest ih =>
    cases hs : extractSol k0 with
    | none =>
      simp only [assignSplitAux, hs] at h
      cases h
    | some n =>
      simp only [assignSplitAux, hs] at h
      by_cases hn : n ∈ trainSols
      · rw [if_pos hn] at h
        obtain ⟨ih1, ih2⟩ := ih h
        constructor
        · intro k
          rw [ih1 k]
          simp only [List.mem_append, List.mem_cons, List.not_mem_nil, or_false]
          constructor
          · rintro ((hk | rfl) | ⟨hk, hP⟩)
            · exact Or.inl hk
            · exact Or.inr ⟨Or.inl rfl, n, hs, hn⟩
            · exact Or.inr ⟨Or.inr hk, hP⟩
          · rintro (hk | ⟨rfl | hk, hP⟩)
            · exact Or.inl (Or.inl hk)
            · exact Or.inl (Or.inr rfl)
            · exact Or.inr ⟨hk, hP⟩
        · intro k
          rw [ih2 k]
          simp only [List.mem_cons]
          constructor
          · rintro (hk | ⟨hk, hQ⟩)
            · exact Or.inl hk
            · exact Or.inr ⟨Or.inr hk, hQ⟩
          · rintro (hk | ⟨rfl | hk, hQ⟩)
            · exact Or.inl hk
            · obtain ⟨n2, hs2, hn2⟩ := hQ
              rw [hs] at hs2
              injection hs2 with hs3
              exact absurd hn (hs3 ▸ hn2)
            · exact Or.inr ⟨hk, hQ⟩
      · rw [if_neg hn] at h
        obtain ⟨ih1, ih2⟩ := ih h
        constructor
        · intro k
          rw [ih1 k]
          simp only [List.mem_cons]
          constructor
          · rintro (hk | ⟨hk, hP⟩)
            · exact Or.inl hk
            · exact Or.inr ⟨Or.inr hk, hP⟩
          · rintro (hk | ⟨rfl | hk, hP⟩)
            · exact Or.inl hk
            · obtain ⟨n2, hs2, hn2⟩ := hP
              rw [hs] at hs2
              injection hs2 with hs3
              exact absurd (hs3 ▸ hn2) hn
            · exact Or.inr ⟨hk, hP⟩
        · intro k
          rw [ih2 k]
          simp only [List.mem_append, List.mem_cons, List.not_mem_nil, or_false]
          constructor
          · rintro ((hk | rfl) | ⟨hk, hQ⟩)
            · exact Or.inl hk
            · exact Or.inr ⟨Or.inl rfl, n, hs, hn⟩
            · exact Or.inr ⟨Or.inr hk, hQ⟩
          · rintro (hk | ⟨rfl | hk, hQ⟩)
            · exact Or.inl (Or.inl hk)
            · exact Or.inl (Or.inr rfl)
            · exact Or.inr ⟨hk, hQ⟩

theorem episodeSplitStep_ok_mem {shuffle : List Nat → List Nat} {trainProp : ℚ}
    {keys tr te : List String}
    (h : episodeSplitStep shuffle trainProp keys = Except.ok (tr, te)) :
    ∃ ts : List Nat,
      (∀ k, k ∈ tr ↔ k ∈ keys ∧ ∃ n, extractSol k = some n ∧ n ∈ ts) ∧
      (∀ k, k ∈ te ↔ k ∈ keys ∧ ∃ n, extractSol k = some n ∧ n ∉ ts) ∧
      (∀ k ∈ keys, ∃ n, extractSol k = some n) := by
  unfold episodeSplitStep at h
  cases hc : collectSols keys with
  | error e => rw [hc] at h; cases h
  | ok sols =>
    rw [hc] at h
    dsimp only at h
    obtain ⟨h1, h2⟩ := assignSplitAux_mem h
    refine ⟨(shuffle (firstSeenAux [] sols)).take
      ((((firstSeenAux [] sols).length : ℚ) * trainProp).floor).toNat, ?_, ?_,
      collectSols_ok_extract hc⟩
    · intro k
      rw [h1 k]
      simp
    · intro k
      rw [h2 k]
      simp

theorem samplerSpec_revPick : SamplerSpec revPick := by
  intro pop k
  refine ⟨?_, ?_, ?_⟩
  · intro x hx
    have := List.take_subset k pop.reverse hx
    exact List.mem_reverse.mp this
  · intro hnd
    exact List.Nodup.sublist (List.take_sublist k pop.reverse) (List.nodup_reverse.mpr hnd)
  · intro hk
    simp only [revPick, List.length_take, List.length_reverse]
    omega

end Lemmas

section Claims

/-- C1: every Dataset Curator pass (deduplication, space-name pruning,
panorama filtering, positive-count capping, distraction pruning,
minimum-correspondence pruning) preserves the manifest invariant: for every
ground key g and aerial key a present, g ∈ aerial[a].positive iff
a ∈ ground[g].positive (likewise semi-positive), with positive and
semi-positive membership mutually exclusive per pair (the conclusions `WF _`
contain `BiConsistent` and `MutExcl`); in particular `removeGroundImage`
deletes the ground entry and scrubs its key from every aerial tile's
positive and semi-positive lists, and `removeAerialImage` does the symmetric
scrub. -/
theorem c1_curation_preserves_bidirectional_consistency
    (pick : List String → Nat → List String) (hpick : SamplerSpec pick)
    (maxPos : Nat) (minAspect keepProp : ℚ) (m : Manifest) (hwf : WF m) :
    (WF (dedupPass m) ∧ WF (spacePass m) ∧ WF (panoramaPass minAspect m) ∧
     WF (capPass pick maxPos m) ∧ WF (distractionPass pick keepProp m) ∧
     WF (minSemiPass m)) ∧
    (∀ g, (∀ p ∈ (removeGroundImage g m).ground, p.1 ≠ g) ∧
          (∀ q ∈ (removeGroundImage g m).aerial,
            g ∉ q.2.positive ∧ g ∉ q.2.semiPositive)) ∧
    (∀ a, (∀ q ∈ (removeAerialImage a m).aerial, q.1 ≠ a) ∧
          (∀ p ∈ (removeAerialImage a m).ground,
            a ∉ p.2.positive ∧ a ∉ p.2.semiPositive)) := by
  refine ⟨⟨WF_dedupPass hwf, WF_spacePass hwf, WF_panoramaPass hwf minAspect,
    WF_capPass hpick hwf, WF_distractionPass hwf, WF_minSemiPass hwf⟩, ?_, ?_⟩
  · intro g
    exact removeGround_scrubbed hwf g
  · intro a
    exact removeAerial_scrubbed hwf a

/-- Witness for C1 at a concrete well-formed manifest and the concrete
sampler `takePick`. -/
theorem c1_witness :
    WF mC1 ∧ WF (capPass takePick 1 mC1) ∧ WF (dedupPass mC1) ∧
    (∀ p ∈ (removeGroundImage "g.png" mC1).ground, p.1 ≠ "g.png") := by
  have h := c1_curation_preserves_bidirectional_consistency takePick
    samplerSpec_takePick 1 2 1 mC1 (by decide)
  exact ⟨by decide, h.1.2.2.2.1, h.1.1, (h.2.1 "g.png").1⟩

/-- C2, divergence of the code from the claim's reference definition: the
builder compares the raw capture strings lexicographically (Python chained
`<=` on `str`), not numerically.  The ground point at longitude 2.5 lies
numerically left of the positive boundary [10.0, 30.0] (third conjunct), so
the claim's reference definition classifies the pair unrelated (second
conjunct), yet the code classifies it positive because "10.0" ≤ "2.5" ≤
"30.0" lexicographically (first conjunct). -/
theorem c2_string_comparison_divergence :
    classifyPair giC2 aiC2 = PairClass.positive ∧
    classifyPair_spec giC2 aiC2 = PairClass.unrelated ∧
    decVal giC2.lon < decVal aiC2.posLon0 := by
  have h25 : decVal "2.5" = 5 / 2 := by
    have h : decVal "2.5" = ((2 : Nat) : ℚ) + ((5 : Nat) : ℚ) / ((10 : ℚ) ^ (1 : Nat)) := rfl
    rw [h]; push_cast; norm_num
  have h10 : decVal "10.0" = 10 := by
    have h : decVal "10.0" = ((10 : Nat) : ℚ) + ((0 : Nat) : ℚ) / ((10 : ℚ) ^ (1 : Nat)) := rfl
    rw [h]; push_cast; norm_num
  have h5 : decVal "5.0" = 5 := by
    have h : decVal "5.0" = ((5 : Nat) : ℚ) + ((0 : Nat) : ℚ) / ((10 : ℚ) ^ (1 : Nat)) := rfl
    rw [h]; push_cast; norm_num
  refine ⟨by decide, ?_, ?_⟩
  · have hpos : is_positive_spec giC2 aiC2 = false := by
      unfold is_positive_spec
      have hd : decide (decVal aiC2.posLon0 ≤ decVal giC2.lon) = false := by
        show decide (decVal "10.0" ≤ decVal "2.5") = false
        rw [decide_eq_false_iff_not, h10, h25]
        norm_num
      rw [hd]
      simp
    have hsemi : is_semi_positive_spec giC2 aiC2 = false := by
      unfold is_semi_positive_spec
      have hd : decide (decVal aiC2.semiLon0 ≤ decVal giC2.lon) = false := by
        show decide (decVal "5.0" ≤ decVal "2.5") = false
        rw [decide_eq_false_iff_not, h5, h25]
        norm_num
      rw [hd]
      simp
    unfold classifyPair_spec
    rw [hpos, hsemi]
    simp
  · show decVal "2.5" < decVal "10.0"
    rw [h25, h10]
    norm_num

/-- C3, counterexample: the pipeline's random draws come from the ambient
global random module (`from random import sample`, `random.shuffle`), with
no seed in the configuration surface; modelling the ambient source as the
sampling oracle, two runs on identical inputs under two different — equally
valid — ambient sources produce different split sets, so the claimed
two-run determinism does not hold. -/
theorem c3_counterexample :
    SamplerSpec takePick ∧ SamplerSpec revPick ∧
    randomSplitSets takePick ["a.png", "b.png"] (1 / 2) ≠
      randomSplitSets revPick ["a.png", "b.png"] (1 / 2) := by
  refine ⟨samplerSpec_takePick, samplerSpec_revPick, ?_⟩
  have hlen : (["a.png", "b.png"] : List String).length = 2 := rfl
  have hq : ((2 : Nat) : ℚ) * (1 / 2) = 1 := by push_cast; norm_num
  have hk : (((["a.png", "b.png"] : List String).length : ℚ) * (1 / 2)).floor.toNat = 1 := by
    rw [hlen, hq]
    rfl
  have e1 : randomSplitSets takePick ["a.png", "b.png"] (1 / 2) = (["a.png"], ["b.png"]) := by
    simp only [randomSplitSets]
    rw [hk]
    decide
  have e2 : randomSplitSets revPick ["a.png", "b.png"] (1 / 2) = (["b.png"], ["a.png"]) := by
    simp only [randomSplitSets]
    rw [hk]
    decide
  rw [e1, e2]
  decide

/-- C3, amended: each sampling site (capping, distraction pruning, random
split) is a pure function of its inputs and of the ambient random source;
two runs whose ambient sources agree on every draw produce identical
results, but no seed parameter exists to pin the ambient source down. -/
theorem c3_amended_determinism_relative_to_ambient_source
    (s1 s2 : List String → Nat → List String) (h : ∀ pop k, s1 pop k = s2 pop k)
    (gs : List String) (t : ℚ) (m : Manifest) (maxPos : Nat) (d : ℚ) :
    randomSplitSets s1 gs t = randomSplitSets s2 gs t ∧
    capPass s1 maxPos m = capPass s2 maxPos m ∧
    distractionPass s1 d m = distractionPass s2 d m := by
  have hs : s1 = s2 := funext fun pop => funext fun k => h pop k
  subst hs
  exact ⟨rfl, rfl, rfl⟩

/-- Witness for the amended C3 at concrete arguments. -/
theorem c3_amended_witness :
    randomSplitSets takePick ["a.png"] 1 = randomSplitSets takePick ["a.png"] 1 ∧
    capPass takePick 1 mC1 = capPass takePick 1 mC1 ∧
    distractionPass takePick 1 mC1 = distractionPass takePick 1 mC1 :=
  c3_amended_determinism_relative_to_ambient_source takePick takePick
    (fun _ _ => rfl) ["a.png"] 1 mC1 1 1

/-- C4, counterexample: the parser does not return typed values.  Two
filenames whose identifier fields denote the same integer (007 and 7) parse
to different field values, and two filenames whose center-longitude fields
denote the same number (01.50 and 1.5) parse to different field values —
the fields are the raw capture strings, not integers or floats. -/
theorem c4_counterexample :
    (parseAerial "007_1.5_2.5_3.5_4.5_5.5_6.5_7.5_8.5_9.5_10.5.png").map
      (fun f => f.tileId) = some "007" ∧
    (parseAerial "7_1.5_2.5_3.5_4.5_5.5_6.5_7.5_8.5_9.5_10.5.png").map
      (fun f => f.tileId) = some "7" ∧
    ("007" : String) ≠ "7" ∧
    digitsToNat "007".data = digitsToNat "7".data ∧
    (parseAerial "7_01.50_2.5_3.5_4.5_5.5_6.5_7.5_8.5_9.5_10.5.png").map
      (fun f => f.centerLon) = some "01.50" ∧
    (parseAerial "7_1.5_2.5_3.5_4.5_5.5_6.5_7.5_8.5_9.5_10.5.png").map
      (fun f => f.centerLon) = some "1.5" ∧
    decVal "01.50" = decVal "1.5" ∧
    ("01.50" : String) ≠ "1.5" := by
  refine ⟨by decide, by decide, by decide, by decide, by decide, by decide, ?_, by decide⟩
  have ha : decVal "01.50" = ((1 : Nat) : ℚ) + ((50 : Nat) : ℚ) / ((10 : ℚ) ^ (2 : Nat)) := rfl
  have hb : decVal "1.5" = ((1 : Nat) : ℚ) + ((5 : Nat) : ℚ) / ((10 : ℚ) ^ (1 : Nat)) := rfl
  rw [ha, hb]
  push_cast
  norm_num

/-- C4, amended: on a successful match the Label Parser returns the raw
captured substrings of the filename — verbatim string segments in the
grammar's textual shape (digit-run identifier, `-?\d+\.\d+` coordinates),
with no conversion to numbers — and on a non-matching filename the
manifest-builder scan skips the file and continues: the scan output
contains exactly the parseable names. -/
theorem c4_amended_parser_returns_raw_capture_strings :
    (∀ names (n : String) (f : AerialFields),
      ((n, f) ∈ scanAerial names ↔ n ∈ names ∧ parseAerial n = some f)) ∧
    (∀ (n : String) (f : AerialFields), parseAerial n = some f →
      (∃ tail, n.data = f.tileId.data ++ '_' :: f.centerLon.data ++
        '_' :: f.centerLat.data ++ '_' :: f.minPosLon.data ++
        '_' :: f.maxPosLat.data ++ '_' :: f.maxPosLon.data ++
        '_' :: f.minPosLat.data ++ '_' :: f.minSemiLon.data ++
        '_' :: f.maxSemiLat.data ++ '_' :: f.maxSemiLon.data ++
        '_' :: f.minSemiLat.data ++ '.' :: 'p' :: 'n' :: 'g' :: tail) ∧
      f.tileId.data ≠ [] ∧ (∀ c ∈ f.tileId.data, c.isDigit = true) ∧
      DecShape f.centerLon.data ∧ DecShape f.centerLat.data ∧
      DecShape f.minPosLon.data ∧ DecShape f.maxPosLat.data ∧
      DecShape f.maxPosLon.data ∧ DecShape f.minPosLat.data ∧
      DecShape f.minSemiLon.data ∧ DecShape f.maxSemiLat.data ∧
      DecShape f.maxSemiLon.data ∧ DecShape f.minSemiLat.data) :=
  ⟨fun _ _ _ => mem_scanAerial, fun _ _ h => parseAerial_sound h⟩

/-- Witness for the amended C4: the concrete name `nC4` parses to the raw
field record `fC4`, whose center-longitude capture has the decimal shape. -/
theorem c4_amended_witness :
    parseAerial nC4 = some fC4 ∧ (nC4, fC4) ∈ scanAerial ["bad.png", nC4] ∧
    DecShape fC4.centerLon.data := by
  have h1 : parseAerial nC4 = some fC4 := by decide
  refine ⟨h1, ?_, ?_⟩
  · exact (c4_amended_parser_returns_raw_capture_strings.1 ["bad.png", nC4] nC4 fC4).mpr
      ⟨by decide, h1⟩
  · exact (c4_amended_parser_returns_raw_capture_strings.2 nC4 fC4 h1).2.2.2.1

/-- C5: one capping step on an aerial tile whose positive list exceeds the
(positive) configured maximum keeps exactly the sampler's chosen subset of
the configured size, and every excluded ground image is pruned from the
manifest entirely: its ground entry is deleted and its key is absent from
the positive and semi-positive lists of every remaining tile, not just the
capped one. -/
theorem c5_capping_prunes_excluded_ground_images_entirely
    (pick : List String → Nat → List String) (hpick : SamplerSpec pick)
    (maxPos : Nat) (m : Manifest) (hwf : WF m) (a : String) (ai : AerialItem)
    (ha : lookupKey m.aerial a = some ai) (hmax : 0 < maxPos)
    (hover : maxPos < ai.positive.length) :
    (∃ ai', lookupKey (capOne pick maxPos m a).aerial a = some ai' ∧
      ai'.positive = pick ai.positive maxPos) ∧
    (pick ai.positive maxPos).length = maxPos ∧
    (∀ x ∈ pick ai.positive maxPos, x ∈ ai.positive) ∧
    (∀ g ∈ ai.positive, g ∉ pick ai.positive maxPos →
      (∀ p ∈ (capOne pick maxPos m a).ground, p.1 ≠ g) ∧
      (∀ q ∈ (capOne pick maxPos m a).aerial,
        g ∉ q.2.positive ∧ g ∉ q.2.semiPositive)) := by
  have hg : maxPos ≠ 0 ∧ maxPos < ai.positive.length := ⟨by omega, hover⟩
  rw [capOne_eq ha hg]
  have haim : (a, ai) ∈ m.aerial := lookupKey_mem ha
  have hwf1 : WF ((ai.positive.filter (fun g => decide (g ∉ pick ai.positive maxPos))).foldl
      (fun acc g => removeGroundImage g acc) m) := WF_foldRemoveGround hwf
  refine ⟨?_, (hpick ai.positive maxPos).2.2 (le_of_lt hover),
    (hpick ai.positive maxPos).1, ?_⟩
  · refine ⟨{ multiScrubG (ai.positive.filter (fun g => decide (g ∉ pick ai.positive maxPos))) ai
        with positive := pick ai.positive maxPos }, ?_, rfl⟩
    apply lookupKey_of_mem
    · apply mem_setPositiveList.mpr
      left
      refine ⟨multiScrubG (ai.positive.filter (fun g => decide (g ∉ pick ai.positive maxPos))) ai, ?_, rfl⟩
      rw [foldRemoveGround_aerial]
      exact List.mem_map.mpr ⟨(a, ai), haim, rfl⟩
    · rw [keys_setPositiveList, keys_foldRemoveGround]
      exact hwf.1.1
  · intro g hgpos hgns
    have hgleft : g ∈ ai.positive.filter (fun g => decide (g ∉ pick ai.positive maxPos)) :=
      mem_capLeftovers.mpr ⟨hgpos, hgns⟩
    constructor
    · intro p hp
      rw [ground_setPositiveList] at hp
      intro he
      exact (foldRemoveGround_ground_mem.mp hp).2 (he ▸ hgleft)
    · intro q hq
      rcases mem_setPositiveList.mp hq with ⟨ai0, hai0, rfl⟩ | ⟨hq1, _⟩
      · obtain ⟨ai1, hai1, he1⟩ := mem_foldRemoveGround_aerial.mp hai0
        have hnd1 := hwf.2.1.1 ((a, ai0).1, ai1) hai1
        constructor
        · show g ∉ pick ai.positive maxPos
          exact hgns
        · show g ∉ ai0.semiPositive
          rw [show ai0 = (a, ai0).2 from rfl, he1, multiScrubG_semi,
            mem_foldl_erase hnd1.2]
          rintro ⟨_, hnl⟩
          exact hnl hgleft
      · obtain ⟨ai1, hai1, he1⟩ := mem_foldRemoveGround_aerial.mp hq1
        have hnd1 := hwf.2.1.1 (q.1, ai1) hai1
        constructor
        · rw [he1, multiScrubG_positive, mem_foldl_erase hnd1.1]
          rintro ⟨_, hnl⟩
          exact hnl hgleft
        · rw [he1, multiScrubG_semi, mem_foldl_erase hnd1.2]
          rintro ⟨_, hnl⟩
          exact hnl hgleft

/-- C6, counterexample: the Split Generator does not emit exactly one
correspondence line per emitted ground image — it emits one line per entry
of the image's positive list.  In manifest `mC6` the ground image g.png has
two positive tiles (and three semi-positives, so the truncation path is not
involved), and the emitted content for the one-image set contains two
newline-terminated lines, not one. -/
theorem c6_counterexample :
    (emitSplitMK tpxZero mC6 ["g.png"]).map countNewlines = some 2 ∧ (2 : Nat) ≠ 1 := by
  constructor
  · decide
  · decide

/-- C6, amended: for every ground image of the emitted set with at least 3
semi-positive tiles (all referenced tiles present), the generator emits one
line per entry of its positive list — zero lines when the positive list is
empty, several when it has several entries — each line consisting of the
ground name, that positive tile's name with its offset, then the first 3
semi-positive entries with their offsets; every offset is
pixel(ground location) − pixel(tile center), written row then column
(`lineFor` writes `off.2`, the row, before `off.1`, the column, and
`pxOffset` subtracts the aerial center pixel from the ground pixel). -/
theorem c6_amended_one_line_per_positive_entry
    (tpx : String → String → Int × Int) (m : Manifest) (g : String)
    (gi : GroundItem) (hg : lookupKey m.ground g = some gi)
    (hsem3 : 3 ≤ gi.semiPositive.length)
    (hsems : ∀ a ∈ gi.semiPositive.take 3, (lookupKey m.aerial a).isSome = true)
    (hpos : ∀ a ∈ gi.positive, (lookupKey m.aerial a).isSome = true) :
    emitSplitMK tpx m [g] =
      some (strConcat (gi.positive.map (lineFor tpx m g gi))) := by
  unfold emitSplitMK
  simp only [List.foldlM_cons, List.foldlM_nil, hg]
  rw [emitPosLoop_eq hsem3 hsems hpos]
  simp

/-- Witness for the amended C6: a ground image with one positive and three
semi-positive tiles produces exactly its one composed line. -/
theorem c6_amended_witness :
    lookupKey mC6ok.ground "g.png" = some giC6ok ∧
    emitSplitMK tpxZero mC6ok ["g.png"] =
      some (strConcat (giC6ok.positive.map (lineFor tpxZero mC6ok "g.png" giC6ok))) := by
  refine ⟨by decide, ?_⟩
  exact c6_amended_one_line_per_positive_entry tpxZero mC6ok "g.png" giC6ok
    (by decide) (by decide) (by decide) (by decide)

/-- Witness for C5: the spec's 5-to-2 scenario.  Tile T1 holds five positive
panoramas; capping with maximum 2 under the `takePick` sampler keeps g1, g2
and prunes g3, g4, g5 — including g3's semi-positive edge to tile T2. -/
theorem c5_witness :
    WF mC5 ∧ lookupKey mC5.aerial "T1" = some aiT1 ∧ 2 < aiT1.positive.length ∧
    (∃ ai', lookupKey (capOne takePick 2 mC5 "T1").aerial "T1" = some ai' ∧
      ai'.positive = takePick aiT1.positive 2) ∧
    (takePick aiT1.positive 2).length = 2 ∧
    (("g3" : String) ∈ aiT1.positive ∧ ("g3" : String) ∉ takePick aiT1.positive 2) ∧
    (∀ p ∈ (capOne takePick 2 mC5 "T1").ground, p.1 ≠ "g3") ∧
    (∀ q ∈ (capOne takePick 2 mC5 "T1").aerial,
      ("g3" : String) ∉ q.2.positive ∧ ("g3" : String) ∉ q.2.semiPositive) := by
  have h := c5_capping_prunes_excluded_ground_images_entirely takePick
    samplerSpec_takePick 2 mC5 (by decide) "T1" aiT1 (by decide) (by decide) (by decide)
  have h3 := h.2.2.2 "g3" (by decide) (by decide)
  exact ⟨by decide, by decide, by decide, h.1, h.2.1, ⟨by decide, by decide⟩, h3.1, h3.2⟩

/-- C7: both split strategies yield a true partition.  Random strategy
(BDAG): the train sample and the remaining ground images are disjoint and
their union is the full retained ground-image list.  Episode strategy (MK):
when the sol-based split succeeds, every ground key lands in exactly one of
the two emitted sets, and together they cover all ground keys (every
episode identifier is assigned: retained sols to train, all others to
test). -/
theorem c7_split_partition
    (pick : List String → Nat → List String) (hpick : SamplerSpec pick)
    (gs : List String) (t : ℚ) (shuffle : List Nat → List Nat) (t2 : ℚ)
    (keys tr te : List String)
    (hok : episodeSplitStep shuffle t2 keys = Except.ok (tr, te)) :
    (∀ x, ¬ (x ∈ (randomSplitSets pick gs t).1 ∧ x ∈ (randomSplitSets pick gs t).2)) ∧
    (∀ x, x ∈ gs ↔ x ∈ (randomSplitSets pick gs t).1 ∨ x ∈ (randomSplitSets pick gs t).2) ∧
    (∀ k, ¬ (k ∈ tr ∧ k ∈ te)) ∧
    (∀ k, k ∈ keys ↔ k ∈ tr ∨ k ∈ te) := by
  obtain ⟨ts, htr, hte, hex⟩ := episodeSplitStep_ok_mem hok
  refine ⟨?_, ?_, ?_, ?_⟩
  · rintro x ⟨h1, h2⟩
    simp only [randomSplitSets] at h1 h2
    have := (List.mem_filter.mp h2).2
    rw [decide_eq_true_iff] at this
    exact this h1
  · intro x
    simp only [randomSplitSets]
    constructor
    · intro hx
      by_cases hm : x ∈ pick gs (((gs.length : ℚ) * t).floor).toNat
      · exact Or.inl hm
      · refine Or.inr (List.mem_filter.mpr ⟨hx, ?_⟩)
        rw [decide_eq_true_iff]
        exact hm
    · rintro (hx | hx)
      · exact (hpick gs _).1 x hx
      · exact (List.mem_filter.mp hx).1
  · rintro k ⟨h1, h2⟩
    obtain ⟨_, n1, hn1, hin⟩ := (htr k).mp h1
    obtain ⟨_, n2, hn2, hout⟩ := (hte k).mp h2
    rw [hn1] at hn2
    injection hn2 with hn3
    exact hout (hn3 ▸ hin)
  · intro k
    constructor
    · intro hk
      obtain ⟨n, hn⟩ := hex k hk
      by_cases hin : n ∈ ts
      · exact Or.inl ((htr k).mpr ⟨hk, n, hn, hin⟩)
      · exact Or.inr ((hte k).mpr ⟨hk, n, hn, hin⟩)
    · rintro (hk | hk)
      · exact ((htr k).mp hk).1
      · exact ((hte k).mp hk).1

/-- Witness for C7: concrete runs of both strategies.  The random strategy
splits a two-image list under `takePick`; the episode strategy assigns all
three keys of `keysC8` (sols 1, 1, 2 with full train proportion) to the
train set and none to the test set. -/
theorem c7_witness :
    episodeSplitStep idShuffle 1 keysC8 = Except.ok (keysC8, []) ∧
    (∀ x, ¬ (x ∈ (randomSplitSets takePick ["a.png", "b.png"] (1 / 2)).1 ∧
      x ∈ (randomSplitSets takePick ["a.png", "b.png"] (1 / 2)).2)) ∧
    (∀ k, k ∈ keysC8 ↔ k ∈ keysC8 ∨ k ∈ ([] : List String)) := by
  have hok : episodeSplitStep idShuffle 1 keysC8 = Except.ok (keysC8, []) := by
    unfold episodeSplitStep
    have hc : collectSols keysC8 = Except.ok [1, 1, 2] := by rfl
    rw [hc]
    dsimp only
    have h1 : firstSeenAux ([] : List Nat) [1, 1, 2] = [1, 2] := by decide
    rw [h1]
    have h2 : ((([1, 2] : List Nat).length : ℚ)) * 1 = 2 := by norm_num
    rw [h2]
    have h3 : ((2 : ℚ).floor).toNat = 2 := rfl
    rw [h3]
    rfl
  have h := c7_split_partition takePick samplerSpec_takePick ["a.png", "b.png"] (1 / 2)
    idShuffle 1 keysC8 keysC8 [] hok
  exact ⟨hok, h.1, h.2.2.2⟩

/-- C8: episode no-leakage.  Under the sol-based split, any two ground keys
with the same extracted episode identifier are assigned to the same side of
the partition: same membership in the train set and in the test set. -/
theorem c8_episode_no_leakage
    (shuffle : List Nat → List Nat) (t : ℚ) (keys tr te : List String)
    (hok : episodeSplitStep shuffle t keys = Except.ok (tr, te))
    (k1 k2 : String) (h1 : k1 ∈ keys) (h2 : k2 ∈ keys)
    (hsol : extractSol k1 = extractSol k2) :
    (k1 ∈ tr ↔ k2 ∈ tr) ∧ (k1 ∈ te ↔ k2 ∈ te) := by
  obtain ⟨ts, htr, hte, _⟩ := episodeSplitStep_ok_mem hok
  constructor
  · rw [htr k1, htr k2, hsol]
    constructor
    · rintro ⟨_, hP⟩; exact ⟨h2, hP⟩
    · rintro ⟨_, hP⟩; exact ⟨h1, hP⟩
  · rw [hte k1, hte k2, hsol]
    constructor
    · rintro ⟨_, hQ⟩; exact ⟨h2, hQ⟩
    · rintro ⟨_, hQ⟩; exact ⟨h1, hQ⟩

/-- Witness for C8: the two keys of `keysC8` carrying sol 0001 end up on the
same side of the concrete split. -/
theorem c8_witness :
    extractSol "a_0001_x.png" = extractSol "b_0001_y.png" ∧
    (("a_0001_x.png" : String) ∈ keysC8 ↔ ("b_0001_y.png" : String) ∈ keysC8) ∧
    (("a_0001_x.png" : String) ∈ ([] : List String) ↔
      ("b_0001_y.png" : String) ∈ ([] : List String)) := by
  have hok : episodeSplitStep idShuffle 1 keysC8 = Except.ok (keysC8, []) := by
    unfold episodeSplitStep
    have hc : collectSols keysC8 = Except.ok [1, 1, 2] := by rfl
    rw [hc]
    dsimp only
    have hf : firstSeenAux ([] : List Nat) [1, 1, 2] = [1, 2] := by decide
    rw [hf]
    have hq : ((([1, 2] : List Nat).length : ℚ)) * 1 = 2 := by norm_num
    rw [hq]
    have hfl : ((2 : ℚ).floor).toNat = 2 := rfl
    rw [hfl]
    rfl
  have h := c8_episode_no_leakage idShuffle 1 keysC8 keysC8 [] hok
    "a_0001_x.png" "b_0001_y.png" (by decide) (by decide) (by decide)
  exact ⟨by decide, h.1, h.2⟩

/-- C10: the episode-grouped split is total only on ground keys containing
an underscore-delimited four-digit segment: if any ground key has no
`_\d{4}_` match, the sol-collection loop indexes an empty findall list and
the split step aborts with an uncaught error instead of skipping the
image. -/
theorem c10_missing_sol_segment_aborts
    (shuffle : List Nat → List Nat) (t : ℚ) (keys : List String) (k : String)
    (hk : k ∈ keys) (hbad : findall4 k.data = []) :
    ∃ e, episodeSplitStep shuffle t keys = Except.error e := by
  have hnone : extractSol k = none := by
    unfold extractSol
    rw [hbad]
  obtain ⟨e, he⟩ := collectSols_err hk hnone
  refine ⟨e, ?_⟩
  unfold episodeSplitStep
  rw [he]

/-- Witness for C10: a key with no four-digit sol segment aborts the split
step. -/
theorem c10_witness :
    findall4 ("nosegment.png" : String).data = [] ∧
    ∃ e, episodeSplitStep idShuffle 1 ["nosegment.png"] = Except.error e :=
  ⟨by decide, c10_missing_sol_segment_aborts idShuffle 1 ["nosegment.png"]
    "nosegment.png" (by decide) (by decide)⟩

/-- C9, counterexample: an out-of-range distraction/train proportion does
not cause a fatal configuration error — the startup processing of both
prepare-transgeo.py variants silently clamps it into [0,1]
(`max(min(x, 1.0), 0)`) and returns normally, while the spec's
ConfigurationError check (modelled by `checkProportions_spec`) would
abort on the same input 1.5. -/
theorem c9_counterexample :
    processProportions (3 / 2) (1 / 2) = ((1 : ℚ), (1 / 2 : ℚ)) ∧
    checkProportions_spec (3 / 2) (1 / 2) = Except.error ConfigError.outOfRange ∧
    (3 / 2 : ℚ) ≠ 1 := by
  refine ⟨?_, ?_, by norm_num⟩
  · have h1 : clampProportion (3 / 2) = 1 := by
      unfold clampProportion
      rw [min_def, max_def]
      norm_num
    have h2 : clampProportion (1 / 2) = 1 / 2 := by
      unfold clampProportion
      rw [min_def, max_def]
      norm_num
    unfold processProportions
    rw [h1, h2]
  · unfold checkProportions_spec
    rw [if_pos (Or.inr (by norm_num : (1 : ℚ) < 3 / 2))]

/-- C9, amended: out-of-range proportions are silently clamped to the
nearest bound of [0,1] at startup; the result is always in [0,1], in-range
values pass through unchanged, and no error is ever raised (the processing
is a total function). -/
theorem c9_amended_proportions_silently_clamped (x : ℚ) :
    0 ≤ clampProportion x ∧ clampProportion x ≤ 1 ∧
    (0 ≤ x → x ≤ 1 → clampProportion x = x) := by
  unfold clampProportion
  refine ⟨le_max_right _ _, ?_, ?_⟩
  · exact max_le (min_le_right x 1) (by norm_num)
  · intro h0 h1
    rw [min_eq_left h1, max_eq_left h0]

/-- Witness for the amended C9 at the in-range proportion 1/2. -/
theorem c9_amended_witness :
    0 ≤ clampProportion (1 / 2) ∧ clampProportion (1 / 2) ≤ 1 ∧
    clampProportion (1 / 2) = 1 / 2 := by
  have h := c9_amended_proportions_silently_clamped (1 / 2)
  exact ⟨h.1, h.2.1, h.2.2 (by norm_num) (by norm_num)⟩

end Claims

end MLPercy
